import Mathlib

/-!
# Shallow embedding of the uni-ui concentrated-liquidity AMM core

This file embeds the arithmetic core of the repository — the tick/price
conversion of `unnamed/part_005` (the reference implementation of the
missing `TickMath` module, used verbatim by the repository's contract
comparison tests), `FullMath`, `SqrtPriceMath`, `LiquidityMath`,
`SwapMath.computeSwapStep` and the `VirtualPool` orchestrator of
`src/core` — and proves properties of the embedded functions.

Conventions:
* JSBI / BigInt values are embedded as `Int`.  JavaScript BigInt division
  truncates toward zero, so `JSBI.divide` is `Int.tdiv` and
  `JSBI.remainder` is `Int.tmod`; division by zero throws in JavaScript,
  so the fallible division helpers return `Except`.
* `x << 96n` on a BigInt is exact multiplication by `2 ^ 96` (arithmetic
  shift), and `x >> k` on a possibly negative BigInt is floor division
  by `2 ^ k` (`Int.fdiv`).
* Quantities that the source guards to be nonnegative before use
  (the tick-conversion intermediates) are carried as `Nat`.
* Functions that can `throw` return `Except String`; stateful methods of
  `VirtualPool` take and return the pool record.  The swap loop, whose
  termination is data dependent, takes explicit fuel and reports fuel
  exhaustion as an error, so an `Except.ok` result always corresponds to
  a run the JavaScript loop completes.
-/

/-- `JSBI.divide`: BigInt division truncates toward zero and throws on a
zero divisor. -/
def jsbiDiv (a b : Int) : Except String Int :=
  if b == 0 then .error "Division by zero" else .ok (a.tdiv b)

/-- `JSBI.remainder`: truncated remainder, throws on a zero divisor. -/
def jsbiRem (a b : Int) : Except String Int :=
  if b == 0 then .error "Division by zero" else .ok (a.tmod b)

/-- Reduction of `Except` binds on an `ok` value (do-notation helper). -/
@[simp] theorem exceptOkBind {e a b : Type} (x : a) (f : a → Except e b) :
    (Except.ok x >>= f : Except e b) = f x := rfl

/-- Reduction of `Except` binds on an error (do-notation helper). -/
@[simp] theorem exceptErrorBind {e a b : Type} (err : e) (f : a → Except e b) :
    ((Except.error err : Except e a) >>= f) = Except.error err := rfl

/-- `throw` on `Except` is `Except.error`. -/
@[simp] theorem exceptThrowEq {e a : Type} (err : e) :
    (throw err : Except e a) = Except.error err := rfl

/-- `pure` on `Except` is `Except.ok`. -/
@[simp] theorem exceptPureEq {e a : Type} (x : a) :
    (pure x : Except e a) = Except.ok x := rfl

namespace TickMath

def MIN_TICK : Int := -887272
def MAX_TICK : Int := 887272
/-- `MIN_SQRT_RATIO` of `constants.ts` / part_005. -/
def minSqrtPriceX96 : Int := 4295128739
/-- `MAX_SQRT_RATIO` of `constants.ts` / part_005. -/
def maxSqrtPriceX96 : Int := 1461446703485210103287273052203988822378723970342

/-- One conditional step of the magic-constant bit ladder of
`getSqrtRatioAtTick`: if the given bit of `absTick` is set, multiply the
running Q128.128 value by the magic constant and shift right 128 bits. -/
def ladderStep (absTick mask c q : Nat) : Nat :=
  if absTick &&& mask != 0 then (q * c) >>> 128 else q

/-- The Q128.128 product-of-powers accumulation of `getSqrtRatioAtTick`
(part_005 lines 18-40), before the positive-tick inversion and the Q64.96
conversion. -/
def ratioQ128 (absTick : Nat) : Nat :=
  let q := if absTick &&& 0x1 != 0 then 0xfffcb933bd6fad37aa2d162d1a594001
           else 0x100000000000000000000000000000000
  let q := ladderStep absTick 0x2 0xfff97272373d413259a46990580e213a q
  let q := ladderStep absTick 0x4 0xfff2e50f5f656932ef12357cf3c7fdcc q
  let q := ladderStep absTick 0x8 0xffe5caca7e10e4e61c3624eaa0941cd0 q
  let q := ladderStep absTick 0x10 0xffcb9843d60f6159c9db58835c926644 q
  let q := ladderStep absTick 0x20 0xff973b41fa98c081472e6896dfb254c0 q
  let q := ladderStep absTick 0x40 0xff2ea16466c96a3843ec78b326b52861 q
  let q := ladderStep absTick 0x80 0xfe5dee046a99a2a811c461f1969c3053 q
  let q := ladderStep absTick 0x100 0xfcbe86c7900a88aedcffc83b479aa3a4 q
  let q := ladderStep absTick 0x200 0xf987a7253ac413176f2b074cf7815e54 q
  let q := ladderStep absTick 0x400 0xf3392b0822b70005940c7a398e4b70f3 q
  let q := ladderStep absTick 0x800 0xe7159475a2c29b7443b29c7fa6e889d9 q
  let q := ladderStep absTick 0x1000 0xd097f3bdfd2022b8845ad8f792aa5825 q
  let q := ladderStep absTick 0x2000 0xa9f746462d870fdf8a65dc1f90e061e5 q
  let q := ladderStep absTick 0x4000 0x70d869a156d2a1b890bb3df62baf32f7 q
  let q := ladderStep absTick 0x8000 0x31be135f97d08fd981231505542fcfa6 q
  let q := ladderStep absTick 0x10000 0x9aa508b5b7a84e1c677de54f3e99bc9 q
  let q := ladderStep absTick 0x20000 0x5d6af8dedb81196699c329225ee604 q
  let q := ladderStep absTick 0x40000 0x2216e584f5fa1ea926041bedfe98 q
  let q := ladderStep absTick 0x80000 0x48a170391f7dc42444e8fa2 q
  q

/-- `getSqrtRatioAtTick` without the bounds guard: the complete computation
for a tick already known to satisfy `|tick| <= MAX_TICK` (part_005 lines
18-47): the bit ladder, the `2^256 - 1 / ratio` inversion for positive
ticks, and the round-up conversion from Q128.128 to Q64.96. -/
def sqrtX96OfTick (tick : Int) : Nat :=
  let q := ratioQ128 tick.natAbs
  let q := if 0 < tick then (2 ^ 256 - 1) / q else q
  (q >>> 32) + (if q % (2 ^ 32) == 0 then 0 else 1)

/-- `getSqrtRatioAtTick` (part_005 lines 14-48). -/
def getSqrtRatioAtTick (tick : Int) : Except String Int :=
  if 887272 < tick.natAbs then .error "TICK_OUT_OF_BOUNDS"
  else .ok (sqrtX96OfTick tick)

/-- `mostSignificantBit` (part_005 lines 51-62). -/
def mostSignificantBit (x : Nat) : Nat :=
  let (x, r) := if x ≥ 0x100000000000000000000000000000000 then (x >>> 128, 128) else (x, 0)
  let (x, r) := if x ≥ 0x10000000000000000 then (x >>> 64, r + 64) else (x, r)
  let (x, r) := if x ≥ 0x100000000 then (x >>> 32, r + 32) else (x, r)
  let (x, r) := if x ≥ 0x10000 then (x >>> 16, r + 16) else (x, r)
  let (x, r) := if x ≥ 0x100 then (x >>> 8, r + 8) else (x, r)
  let (x, r) := if x ≥ 0x10 then (x >>> 4, r + 4) else (x, r)
  let (x, r) := if x ≥ 0x4 then (x >>> 2, r + 2) else (x, r)
  if x ≥ 0x2 then r + 1 else r

/-- The 14-iteration square-and-extract loop of `getTickAtSqrtRatio`
(part_005 lines 81-86), accumulating the extracted fraction bits of the
base-2 logarithm.  In the source the extracted bit `f` is OR-ed into
`log_2` at bit position `63 - i`; those positions are vacant at that point
(the bits already accumulated sit at strictly higher positions and the
initial value is a multiple of `2 ^ 64`), so the BigInt OR coincides with
addition, which is how the accumulator is carried here (`acc` collects the
fraction bits; the caller adds the `(msb - 128) * 2 ^ 64` part).  `steps`
counts the remaining iterations, `i` is the loop index. -/
def logBits : (steps i : Nat) → (r acc : Nat) → Nat
  | 0, _, _, acc => acc
  | steps + 1, i, r, acc =>
    let r := (r * r) >>> 127
    let f := r >>> 128
    logBits steps (i + 1) (r >>> f) (acc + (f <<< (63 - i)))

/-- The signed Q(64+).64 base-2 logarithm `log_2` computed by
`getTickAtSqrtRatio` (part_005 lines 69-86) from a (nonnegative) input. -/
def log2Q64 (x96 : Nat) : Int :=
  let xQ128 := x96 <<< 32
  let msb := mostSignificantBit xQ128
  let r := if msb ≥ 128 then xQ128 >>> (msb - 127) else xQ128 <<< (127 - msb)
  ((msb : Int) - 128) * 2 ^ 64 + (logBits 14 0 r 0 : Int)

/-- The constant `255738958999603826347141` of part_005 line 88. -/
def logSqrt10001Const : Int := 255738958999603826347141

/-- The low-estimate correction constant of part_005 line 89. -/
def lowCorrection : Int := 3402992956809132418596140100660247210

/-- The high-estimate correction constant of part_005 line 90. -/
def highCorrection : Int := 291339464771989622907027621153398088495

/-- `tickLow` of `getTickAtSqrtRatio` (part_005 line 89); BigInt `>>` on a
signed value is floor division. -/
def tickLowOf (x96 : Nat) : Int :=
  Int.fdiv (log2Q64 x96 * logSqrt10001Const - lowCorrection) (2 ^ 128)

/-- `tickHigh` of `getTickAtSqrtRatio` (part_005 line 90). -/
def tickHighOf (x96 : Nat) : Int :=
  Int.fdiv (log2Q64 x96 * logSqrt10001Const + highCorrection) (2 ^ 128)

/-- `getTickAtSqrtRatio` (part_005 lines 64-97). -/
def getTickAtSqrtX96 (sqrtX96 : Int) : Except String Int :=
  if sqrtX96 < minSqrtPriceX96 ∨ maxSqrtPriceX96 ≤ sqrtX96 then
    .error "SQRT_RATIO_OUT_OF_BOUNDS"
  else
    let x := sqrtX96.toNat
    let tickLow := tickLowOf x
    let tickHigh := tickHighOf x
    if tickLow == tickHigh then .ok tickLow
    else do
      let s ← getSqrtRatioAtTick tickHigh
      pure (if s ≤ sqrtX96 then tickHigh else tickLow)

end TickMath

namespace FullMath

/-- `FullMath.mulDiv`: `floor(a * b / denominator)` on nonnegative inputs
(truncated quotient in general, as JavaScript BigInt division). -/
def mulDiv (a b denominator : Int) : Except String Int :=
  jsbiDiv (a * b) denominator

/-- `FullMath.mulDivRoundingUp`: like `mulDiv` but adds one when the
product does not divide evenly. -/
def mulDivRoundingUp (a b denominator : Int) : Except String Int := do
  let product := a * b
  let result ← jsbiDiv product denominator
  let r ← jsbiRem product denominator
  if r != 0 then pure (result + 1) else pure result

end FullMath

namespace LiquidityMath

/-- `LiquidityMath.addDelta` (`types.ts` lines 79-85): adds a signed
liquidity delta.  The source performs a plain subtraction for negative
deltas with no underflow check. -/
def addDelta (x y : Int) : Int :=
  if y < 0 then x - y * (-1) else x + y

end LiquidityMath

/-- `maxLiquidityForAmount0Precise` (`types.ts` concatenation, LiquidityMath
section). -/
def maxLiquidityForAmount0Precise (sqrtRatioAX96 sqrtRatioBX96 amount0 : Int) :
    Except String Int :=
  let (sqrtRatioAX96, sqrtRatioBX96) :=
    if sqrtRatioBX96 < sqrtRatioAX96 then (sqrtRatioBX96, sqrtRatioAX96)
    else (sqrtRatioAX96, sqrtRatioBX96)
  let numerator := amount0 * sqrtRatioAX96 * sqrtRatioBX96
  let denominator := 2 ^ 96 * (sqrtRatioBX96 - sqrtRatioAX96)
  jsbiDiv numerator denominator

/-- `maxLiquidityForAmount0Imprecise`. -/
def maxLiquidityForAmount0Imprecise (sqrtRatioAX96 sqrtRatioBX96 amount0 : Int) :
    Except String Int := do
  let (sqrtRatioAX96, sqrtRatioBX96) :=
    if sqrtRatioBX96 < sqrtRatioAX96 then (sqrtRatioBX96, sqrtRatioAX96)
    else (sqrtRatioAX96, sqrtRatioBX96)
  let intermediate ← jsbiDiv (sqrtRatioAX96 * sqrtRatioBX96) (2 ^ 96)
  jsbiDiv (amount0 * intermediate) (sqrtRatioBX96 - sqrtRatioAX96)

/-- `maxLiquidityForAmount1`. -/
def maxLiquidityForAmount1 (sqrtRatioAX96 sqrtRatioBX96 amount1 : Int) :
    Except String Int :=
  let (sqrtRatioAX96, sqrtRatioBX96) :=
    if sqrtRatioBX96 < sqrtRatioAX96 then (sqrtRatioBX96, sqrtRatioAX96)
    else (sqrtRatioAX96, sqrtRatioBX96)
  jsbiDiv (amount1 * 2 ^ 96) (sqrtRatioBX96 - sqrtRatioAX96)

/-- `maxLiquidityForAmounts`. -/
def maxLiquidityForAmounts (sqrtRatioCurrentX96 sqrtRatioAX96 sqrtRatioBX96
    amount0 amount1 : Int) (useFullPrecision : Bool) : Except String Int := do
  let (sqrtRatioAX96, sqrtRatioBX96) :=
    if sqrtRatioBX96 < sqrtRatioAX96 then (sqrtRatioBX96, sqrtRatioAX96)
    else (sqrtRatioAX96, sqrtRatioBX96)
  if sqrtRatioCurrentX96 ≤ sqrtRatioAX96 then
    if useFullPrecision then maxLiquidityForAmount0Precise sqrtRatioAX96 sqrtRatioBX96 amount0
    else maxLiquidityForAmount0Imprecise sqrtRatioAX96 sqrtRatioBX96 amount0
  else if sqrtRatioCurrentX96 < sqrtRatioBX96 then
    let liquidity0 ←
      if useFullPrecision then maxLiquidityForAmount0Precise sqrtRatioCurrentX96 sqrtRatioBX96 amount0
      else maxLiquidityForAmount0Imprecise sqrtRatioCurrentX96 sqrtRatioBX96 amount0
    let liquidity1 ← maxLiquidityForAmount1 sqrtRatioAX96 sqrtRatioCurrentX96 amount1
    pure (if liquidity0 < liquidity1 then liquidity0 else liquidity1)
  else
    maxLiquidityForAmount1 sqrtRatioAX96 sqrtRatioBX96 amount1


namespace SqrtPriceMath

/-- `multiplyIn256`: multiply and mask to 256 bits.  Masking with
`MaxUint256` is reduction mod `2 ^ 256` (also for negative operands, where
the BigInt AND acts on the two's complement form). -/
def multiplyIn256 (x y : Int) : Int := (x * y).emod (2 ^ 256)

/-- `addIn256`: add and mask to 256 bits. -/
def addIn256 (x y : Int) : Int := (x + y).emod (2 ^ 256)

/-- `SqrtPriceMath.getAmount0Delta` (`SqrtPriceMath.ts` lines 30-54). -/
def getAmount0Delta (sqrtRatioAX96 sqrtRatioBX96 liquidity : Int) (roundUp : Bool) :
    Except String Int := do
  let (sqrtRatioAX96, sqrtRatioBX96) :=
    if sqrtRatioBX96 < sqrtRatioAX96 then (sqrtRatioBX96, sqrtRatioAX96)
    else (sqrtRatioAX96, sqrtRatioBX96)
  let numerator1 := liquidity * 2 ^ 96
  let numerator2 := sqrtRatioBX96 - sqrtRatioAX96
  if roundUp then
    let t ← FullMath.mulDivRoundingUp numerator1 numerator2 sqrtRatioBX96
    FullMath.mulDivRoundingUp t 1 sqrtRatioAX96
  else
    let t ← jsbiDiv (numerator1 * numerator2) sqrtRatioBX96
    jsbiDiv t sqrtRatioAX96

/-- `SqrtPriceMath.getAmount1Delta` (`SqrtPriceMath.ts` lines 60-74). -/
def getAmount1Delta (sqrtRatioAX96 sqrtRatioBX96 liquidity : Int) (roundUp : Bool) :
    Except String Int :=
  let (sqrtRatioAX96, sqrtRatioBX96) :=
    if sqrtRatioBX96 < sqrtRatioAX96 then (sqrtRatioBX96, sqrtRatioAX96)
    else (sqrtRatioAX96, sqrtRatioBX96)
  if roundUp then
    FullMath.mulDivRoundingUp liquidity (sqrtRatioBX96 - sqrtRatioAX96) (2 ^ 96)
  else
    jsbiDiv (liquidity * (sqrtRatioBX96 - sqrtRatioAX96)) (2 ^ 96)

/-- `getNextSqrtPriceFromAmount0RoundingUp` (`SqrtPriceMath.ts` lines
121-155). -/
def getNextSqrtPriceFromAmount0RoundingUp (sqrtPX96 liquidity amount : Int)
    (add : Bool) : Except String Int := do
  if amount == 0 then pure sqrtPX96
  else
    let numerator1 := liquidity * 2 ^ 96
    if add then
      let product := multiplyIn256 amount sqrtPX96
      let overflowProbe ← jsbiDiv product amount
      -- the fallback path `liquidity * 2^96 / (liquidity * 2^96 / sqrtP + amount)`
      let fallback : Except String Int := do
        let d ← jsbiDiv numerator1 sqrtPX96
        FullMath.mulDivRoundingUp numerator1 1 (d + amount)
      if overflowProbe == sqrtPX96 then
        let denominator := addIn256 numerator1 product
        if numerator1 ≤ denominator then
          FullMath.mulDivRoundingUp numerator1 sqrtPX96 denominator
        else fallback
      else fallback
    else
      let product := multiplyIn256 amount sqrtPX96
      let overflowProbe ← jsbiDiv product amount
      if overflowProbe != sqrtPX96 then throw "overflow"
      else if numerator1 ≤ product then throw "underflow"
      else
        let denominator := numerator1 - product
        FullMath.mulDivRoundingUp numerator1 sqrtPX96 denominator

/-- `getNextSqrtPriceFromAmount1RoundingDown` (`SqrtPriceMath.ts` lines
160-178).  The two add-branches of the source (shift-then-divide for
amounts fitting 160 bits, multiply-then-divide otherwise) compute the same
integer. -/
def getNextSqrtPriceFromAmount1RoundingDown (sqrtPX96 liquidity amount : Int)
    (add : Bool) : Except String Int := do
  if add then
    let quotient ←
      if amount ≤ 2 ^ 160 - 1 then jsbiDiv (amount * 2 ^ 96) liquidity
      else jsbiDiv (amount * 2 ^ 96) liquidity
    pure (sqrtPX96 + quotient)
  else
    let quotient ← FullMath.mulDivRoundingUp amount (2 ^ 96) liquidity
    if quotient < sqrtPX96 then pure (sqrtPX96 - quotient)
    else throw "underflow"

/-- `SqrtPriceMath.getNextSqrtPriceFromInput` (`SqrtPriceMath.ts` lines
79-95). -/
def getNextSqrtPriceFromInput (sqrtPX96 liquidity amountIn : Int)
    (zeroForOne : Bool) : Except String Int := do
  if sqrtPX96 ≤ 0 then throw "sqrtPX96 must be > 0"
  else if liquidity ≤ 0 then throw "liquidity must be > 0"
  else if zeroForOne then
    getNextSqrtPriceFromAmount0RoundingUp sqrtPX96 liquidity amountIn true
  else
    getNextSqrtPriceFromAmount1RoundingDown sqrtPX96 liquidity amountIn true

/-- `SqrtPriceMath.getNextSqrtPriceFromOutput` (`SqrtPriceMath.ts` lines
100-116). -/
def getNextSqrtPriceFromOutput (sqrtPX96 liquidity amountOut : Int)
    (zeroForOne : Bool) : Except String Int := do
  if sqrtPX96 ≤ 0 then throw "sqrtPX96 must be > 0"
  else if liquidity ≤ 0 then throw "liquidity must be > 0"
  else if zeroForOne then
    getNextSqrtPriceFromAmount1RoundingDown sqrtPX96 liquidity amountOut false
  else
    getNextSqrtPriceFromAmount0RoundingUp sqrtPX96 liquidity amountOut false

end SqrtPriceMath

/-- `MAX_FEE` of `constants.ts`: one million fee pips. -/
def MAX_FEE : Int := 10 ^ 6

namespace SwapMath

structure SwapStepResult where
  sqrtRatioNextX96 : Int
  amountIn : Int
  amountOut : Int
  feeAmount : Int
deriving Repr, DecidableEq

/-- `SwapMath.computeSwapStep` (`SwapMath.ts` lines 27-126).  The source's
two deferred non-null estimates (`amountIn!`, `amountOut!`) are carried as
`Option Int`; they are `some` exactly on the control paths where the
source reads them. -/
def computeSwapStep (sqrtRatioCurrentX96 sqrtRatioTargetX96 liquidity
    amountRemaining feePips : Int) : Except String SwapStepResult :=
  let zeroForOne : Bool := decide (sqrtRatioTargetX96 ≤ sqrtRatioCurrentX96)
  let exactIn : Bool := decide (0 ≤ amountRemaining)
  let step1 : Except String (Int × Option Int × Option Int) :=
    if exactIn then
      match jsbiDiv (amountRemaining * (MAX_FEE - feePips)) MAX_FEE with
      | .error e => .error e
      | .ok amountRemainingLessFee =>
        match (if zeroForOne then
                 SqrtPriceMath.getAmount0Delta sqrtRatioTargetX96 sqrtRatioCurrentX96
                   liquidity true
               else
                 SqrtPriceMath.getAmount1Delta sqrtRatioCurrentX96 sqrtRatioTargetX96
                   liquidity true) with
        | .error e => .error e
        | .ok amountIn =>
          if amountIn ≤ amountRemainingLessFee then
            .ok (sqrtRatioTargetX96, some amountIn, (none : Option Int))
          else
            match SqrtPriceMath.getNextSqrtPriceFromInput sqrtRatioCurrentX96 liquidity
                amountRemainingLessFee zeroForOne with
            | .error e => .error e
            | .ok next => .ok (next, some amountIn, (none : Option Int))
    else
      match (if zeroForOne then
               SqrtPriceMath.getAmount1Delta sqrtRatioTargetX96 sqrtRatioCurrentX96
                 liquidity false
             else
               SqrtPriceMath.getAmount0Delta sqrtRatioCurrentX96 sqrtRatioTargetX96
                 liquidity false) with
      | .error e => .error e
      | .ok amountOut =>
        if amountOut ≤ amountRemaining * (-1) then
          .ok (sqrtRatioTargetX96, (none : Option Int), some amountOut)
        else
          match SqrtPriceMath.getNextSqrtPriceFromOutput sqrtRatioCurrentX96 liquidity
              (amountRemaining * (-1)) zeroForOne with
          | .error e => .error e
          | .ok next => .ok (next, (none : Option Int), some amountOut)
  match step1 with
  | .error e => .error e
  | .ok (sqrtRatioNextX96, amountInEst, amountOutEst) =>
    let max : Bool := sqrtRatioTargetX96 == sqrtRatioNextX96
    match (match max && exactIn, amountInEst with
           | true, some est => Except.ok est
           | _, _ =>
             if zeroForOne then
               SqrtPriceMath.getAmount0Delta sqrtRatioNextX96 sqrtRatioCurrentX96
                 liquidity true
             else
               SqrtPriceMath.getAmount1Delta sqrtRatioCurrentX96 sqrtRatioNextX96
                 liquidity true) with
    | .error e => .error e
    | .ok amountIn =>
      match (match max && !exactIn, amountOutEst with
             | true, some est => Except.ok est
             | _, _ =>
               if zeroForOne then
                 SqrtPriceMath.getAmount1Delta sqrtRatioNextX96 sqrtRatioCurrentX96
                   liquidity false
               else
                 SqrtPriceMath.getAmount0Delta sqrtRatioCurrentX96 sqrtRatioNextX96
                   liquidity false) with
      | .error e => .error e
      | .ok amountOutRaw =>
        let amountOut :=
          if !exactIn ∧ amountRemaining * (-1) < amountOutRaw then amountRemaining * (-1)
          else amountOutRaw
        match (if exactIn ∧ sqrtRatioNextX96 ≠ sqrtRatioTargetX96 then
                 Except.ok (amountRemaining - amountIn)
               else
                 FullMath.mulDivRoundingUp amountIn feePips (MAX_FEE - feePips)) with
        | .error e => .error e
        | .ok feeAmount => .ok ⟨sqrtRatioNextX96, amountIn, amountOut, feeAmount⟩

end SwapMath

/-- `TokenInfo` of `types.ts`. -/
structure TokenInfo where
  symbol : String
  decimals : Int
deriving Repr, DecidableEq

/-- `TickData` of `types.ts`. -/
structure TickData where
  liquidityNet : Int
  liquidityGross : Int
deriving Repr, DecidableEq

/-- `VirtualPosition` of `types.ts`; the `uuidv4()` string id is embedded
as a number supplied by the caller of `addLiquidity` (see there). -/
structure VirtualPosition where
  id : Nat
  tickLower : Int
  tickUpper : Int
  liquidity : Int
deriving Repr, DecidableEq

/-- `SwapResult` of `types.ts`. -/
structure SwapResult where
  amountIn : Int
  amountOut : Int
  sqrtPriceX96After : Int
  tickAfter : Int
  liquidityAfter : Int
deriving Repr, DecidableEq

/-- `SwapStep` of `types.ts` (per-step detail record of `swapWithSteps`). -/
structure SwapStep where
  sqrtPriceStartX96 : Int
  sqrtPriceNextX96 : Int
  tickNext : Int
  amountIn : Int
  amountOut : Int
  feeAmount : Int
  liquidity : Int
deriving Repr, DecidableEq

/-- `AddLiquidityResult` of `types.ts`. -/
structure AddLiquidityResult where
  amount0 : Int
  amount1 : Int
  liquidity : Int
  position : VirtualPosition
deriving Repr, DecidableEq

/-- The mutable state of `VirtualPool` (`SwapMath.ts` concatenation lines
197-237).  The JavaScript `Map<number, TickData>` is embedded as an
association list with unique keys (`Map.get` / `Map.set` / `Map.delete`
below). -/
structure VirtualPool where
  tokenA : TokenInfo
  tokenB : TokenInfo
  fee : Int
  tickSpacing : Int
  sqrtPriceX96 : Int
  tick : Int
  liquidity : Int
  ticks : List (Int × TickData)
  positions : List VirtualPosition
  initialized : Bool
deriving Repr, DecidableEq

namespace VirtualPool

/-- `this.ticks.get t`. -/
def ticksGet (ticks : List (Int × TickData)) (t : Int) : Option TickData :=
  List.lookup t ticks

/-- `this.ticks.set t v`: replace the binding in place if the key is
present (JavaScript `Map.set` keeps insertion order), else append. -/
def ticksSet : List (Int × TickData) → Int → TickData → List (Int × TickData)
  | [], t, v => [(t, v)]
  | e :: rest, t, v => if e.1 == t then (t, v) :: rest else e :: ticksSet rest t v

/-- `this.ticks.delete t`. -/
def ticksDelete (ticks : List (Int × TickData)) (t : Int) : List (Int × TickData) :=
  ticks.eraseP (fun e => e.1 == t)

/-- The map surgery of `VirtualPool.updateTick` (`SwapMath.ts` concatenation
lines 366-390): read the entry (defaulting to zeros), add the delta to the
gross amount, add or subtract it from the net amount, and delete the entry
when the gross amount reaches zero. -/
def updateTickMap (m : List (Int × TickData)) (tick liquidityDelta : Int) (upper : Bool) :
    List (Int × TickData) :=
  let tickData := (ticksGet m tick).getD ⟨0, 0⟩
  let liquidityGross := tickData.liquidityGross + liquidityDelta
  let liquidityNet :=
    if upper then tickData.liquidityNet - liquidityDelta
    else tickData.liquidityNet + liquidityDelta
  if liquidityGross == 0 then ticksDelete m tick
  else ticksSet m tick ⟨liquidityNet, liquidityGross⟩

/-- `VirtualPool.updateTick`: the method touches only `this.ticks`. -/
def updateTick (p : VirtualPool) (tick : Int) (liquidityDelta : Int) (upper : Bool) :
    VirtualPool :=
  { p with ticks := updateTickMap p.ticks tick liquidityDelta upper }

/-- Modelled from the spec: `nearestUsableTick`, imported by `VirtualPool`
from the repository's `TickMath` module, whose TypeScript source is not in
the snapshot.  Per the spec ("snap ticks to spacing", §4.6) and the
Uniswap SDK convention the port follows, it rounds `tick / tickSpacing` to
the nearest integer (halves toward positive infinity) and multiplies back,
then moves one spacing inward if the result falls outside the global tick
bounds. -/
def nearestUsableTick (tick tickSpacing : Int) : Int :=
  let rounded := Int.fdiv (2 * tick + tickSpacing) (2 * tickSpacing) * tickSpacing
  if rounded < TickMath.MIN_TICK then rounded + tickSpacing
  else if TickMath.MAX_TICK < rounded then rounded - tickSpacing
  else rounded

/-- The body of the `while (x < z)` loop of `sqrt` in `priceUtils.ts`
(Newton's method), with fuel.  Each pass strictly decreases `z`, so a fuel
of `value` is never exhausted.  Written with a bare `Nat.rec` (lazy in the
recursive branch) so that it evaluates in the number of passes actually
taken rather than in the fuel. -/
def jsSqrtLoop (value fuel : Nat) : Nat → Nat → Nat :=
  Nat.rec (motive := fun _ => Nat → Nat → Nat)
    (fun z _ => z)
    (fun _ ih z x => if x < z then ih x ((value / x + x) / 2) else z)
    fuel

/-- `sqrt` of `priceUtils.ts` on a nonnegative BigInt. -/
def jsSqrt (value : Nat) : Nat :=
  if value < 2 then value else jsSqrtLoop value value value (value / 2 + 1)

/-- `priceToSqrtPriceX96` of `priceUtils.ts`, with the price supplied as
the scaled integer `Math.floor(price * 10^18)` — the source's single
floating-point step; everything after it is exact BigInt arithmetic
(`sqrt (10^18) = 10^9`). -/
def priceToSqrtPriceX96Scaled (priceScaled : Nat) : Nat :=
  let sqrtPriceScaled := jsSqrt priceScaled
  let sqrtPrecision := jsSqrt (10 ^ 18)
  sqrtPriceScaled * 2 ^ 96 / sqrtPrecision

/-- `VirtualPool.initialize` (`SwapMath.ts` concatenation lines 243-268),
with the (positive) human price supplied as the scaled integer
`Math.floor(humanPrice * 10^(decimalsB - decimalsA) * 10^18)` that the
source feeds to `priceToSqrtPriceX96` after its floating-point decimal
adjustment. -/
def initializePool (p : VirtualPool) (priceScaled : Nat) : Except String VirtualPool :=
  if p.initialized then .error "Pool already initialized"
  else
    let sqrtPriceX96 : Int := priceToSqrtPriceX96Scaled priceScaled
    let sqrtPriceX96 :=
      if sqrtPriceX96 < TickMath.minSqrtPriceX96 then TickMath.minSqrtPriceX96
      else sqrtPriceX96
    let sqrtPriceX96 :=
      if TickMath.maxSqrtPriceX96 ≤ sqrtPriceX96 then TickMath.maxSqrtPriceX96 - 1
      else sqrtPriceX96
    match TickMath.getTickAtSqrtX96 sqrtPriceX96 with
    | .error e => .error e
    | .ok tick =>
      .ok { p with sqrtPriceX96 := sqrtPriceX96, tick := tick, initialized := true }

/-- The token-amount computation of `VirtualPool.addLiquidity` (its
three-way price-position branch, `SwapMath.ts` concatenation lines
313-340), split out: the amounts actually owed for `liquidity` given the
current price and the range prices. -/
def addAmounts (sqrtPriceX96 sqrtRatioAX96 sqrtRatioBX96 liquidity : Int) :
    Except String (Int × Int) :=
  if sqrtPriceX96 < sqrtRatioAX96 then
    match SqrtPriceMath.getAmount0Delta sqrtRatioAX96 sqrtRatioBX96 liquidity true with
    | .error e => .error e
    | .ok a0 => .ok (a0, (0 : Int))
  else if sqrtPriceX96 < sqrtRatioBX96 then
    match SqrtPriceMath.getAmount0Delta sqrtPriceX96 sqrtRatioBX96 liquidity true with
    | .error e => .error e
    | .ok a0 =>
      match SqrtPriceMath.getAmount1Delta sqrtRatioAX96 sqrtPriceX96 liquidity true with
      | .error e => .error e
      | .ok a1 => .ok (a0, a1)
  else
    match SqrtPriceMath.getAmount1Delta sqrtRatioAX96 sqrtRatioBX96 liquidity true with
    | .error e => .error e
    | .ok a1 => .ok ((0 : Int), a1)

/-- `VirtualPool.addLiquidity` (`SwapMath.ts` concatenation lines 284-361).
`newId` stands for the `uuidv4()` draw for the created position. -/
def addLiquidity (p : VirtualPool) (newId : Nat) (tickLower tickUpper : Int)
    (amount0Desired amount1Desired : Int) :
    Except String (AddLiquidityResult × VirtualPool) :=
  if !p.initialized then .error "Pool not initialized"
  else
    let tickLower := nearestUsableTick tickLower p.tickSpacing
    let tickUpper := nearestUsableTick tickUpper p.tickSpacing
    if tickUpper ≤ tickLower then .error "tickLower must be less than tickUpper"
    else if tickLower < TickMath.MIN_TICK ∨ TickMath.MAX_TICK < tickUpper then
      .error "Tick out of bounds"
    else
      match TickMath.getSqrtRatioAtTick tickLower with
      | .error e => .error e
      | .ok sqrtRatioAX96 =>
        match TickMath.getSqrtRatioAtTick tickUpper with
        | .error e => .error e
        | .ok sqrtRatioBX96 =>
          match maxLiquidityForAmounts p.sqrtPriceX96 sqrtRatioAX96 sqrtRatioBX96
              amount0Desired amount1Desired true with
          | .error e => .error e
          | .ok liquidity =>
            if liquidity ≤ 0 then .error "Insufficient amounts for liquidity"
            else
              match addAmounts p.sqrtPriceX96 sqrtRatioAX96 sqrtRatioBX96 liquidity with
              | .error e => .error e
              | .ok (amount0, amount1) =>
                let p1 := updateTick p tickLower liquidity false
                let p2 := updateTick p1 tickUpper liquidity true
                let p3 :=
                  { p2 with
                    liquidity :=
                      if tickLower ≤ p2.tick ∧ p2.tick < tickUpper then
                        p2.liquidity + liquidity
                      else p2.liquidity }
                let position : VirtualPosition := ⟨newId, tickLower, tickUpper, liquidity⟩
                .ok (⟨amount0, amount1, liquidity, position⟩,
                  { p3 with positions := p3.positions ++ [position] })

/-- `VirtualPool.removePosition` (`SwapMath.ts` concatenation lines
776-796).  `positions.findIndex` followed by `positions[index]` and
`positions.splice(index, 1)` select and remove the first position with the
given id. -/
def removePosition (p : VirtualPool) (positionId : Nat) : Except String VirtualPool :=
  match p.positions.find? (fun q => q.id == positionId) with
  | none => .error "Position not found"
  | some position =>
    let p1 := updateTick p position.tickLower (position.liquidity * (-1)) false
    let p2 := updateTick p1 position.tickUpper (position.liquidity * (-1)) true
    let p3 :=
      { p2 with
        liquidity :=
          if position.tickLower ≤ p2.tick ∧ p2.tick < position.tickUpper then
            p2.liquidity - position.liquidity
          else p2.liquidity }
    .ok { p3 with positions := p3.positions.eraseP (fun q => q.id == positionId) }

/-- `VirtualPool.findNextInitializedTick` (`SwapMath.ts` concatenation
lines 571-596): sort the stored tick keys ascending (`sort((a, b) => a - b)`,
embedded as an insertion sort); scanning from the top for the first key
`<= tick` (or from the bottom for the first `> tick`) returns the scan's
first hit, else the global bound. -/
def insertAsc (x : Int) : List Int → List Int
  | [] => [x]
  | y :: ys => if x ≤ y then x :: y :: ys else y :: insertAsc x ys

def sortAsc (l : List Int) : List Int := l.foldr insertAsc []

def findNextInitializedTick (ticks : List (Int × TickData)) (tick : Int) (lte : Bool) :
    Int × Bool :=
  let sortedTicks := sortAsc (ticks.map Prod.fst)
  if lte then
    match sortedTicks.reverse.find? (fun k => decide (k ≤ tick)) with
    | some k => (k, true)
    | none => (TickMath.MIN_TICK, false)
  else
    match sortedTicks.find? (fun k => decide (tick < k)) with
    | some k => (k, true)
    | none => (TickMath.MAX_TICK, false)

/-- The loop-carried locals of `swapWithSteps` ("Clone state for
simulation", lines 449-454). -/
structure SwapState where
  sqrtPriceX96 : Int
  tick : Int
  liquidity : Int
  amountSpecifiedRemaining : Int
  amountCalculated : Int
  steps : List SwapStep
deriving Repr, DecidableEq

/-- The swap loop of `swapWithSteps` (`SwapMath.ts` concatenation lines
457-534), with explicit fuel; fuel exhaustion is reported as an error so
that an `ok` result always corresponds to a completed JavaScript run. -/
def swapLoop (ticks : List (Int × TickData)) (fee : Int) (zeroForOne exactInput : Bool)
    (sqrtPriceLimitX96 : Int) : Nat → SwapState → Except String SwapState
  | 0, _ => .error "swap loop fuel exhausted"
  | fuel + 1, s =>
    if s.amountSpecifiedRemaining ≠ 0 ∧ s.sqrtPriceX96 ≠ sqrtPriceLimitX96 then do
      let sqrtPriceStartX96 := s.sqrtPriceX96
      let (tickNext, tickNextInitialized) := findNextInitializedTick ticks s.tick zeroForOne
      let tickNextClamped := max TickMath.MIN_TICK (min TickMath.MAX_TICK tickNext)
      let sqrtPriceNextX96 ← TickMath.getSqrtRatioAtTick tickNextClamped
      let sqrtRatioTargetX96 :=
        if (if zeroForOne then sqrtPriceNextX96 < sqrtPriceLimitX96
            else sqrtPriceLimitX96 < sqrtPriceNextX96) then
          sqrtPriceLimitX96
        else sqrtPriceNextX96
      let stepResult ← SwapMath.computeSwapStep s.sqrtPriceX96 sqrtRatioTargetX96
          s.liquidity s.amountSpecifiedRemaining fee
      let sqrtPriceX96 := stepResult.sqrtRatioNextX96
      let (amountSpecifiedRemaining, amountCalculated) :=
        if exactInput then
          (s.amountSpecifiedRemaining - (stepResult.amountIn + stepResult.feeAmount),
           s.amountCalculated - stepResult.amountOut)
        else
          (s.amountSpecifiedRemaining + stepResult.amountOut,
           s.amountCalculated + (stepResult.amountIn + stepResult.feeAmount))
      let steps := s.steps ++ [⟨sqrtPriceStartX96, sqrtPriceX96, tickNextClamped,
        stepResult.amountIn, stepResult.amountOut, stepResult.feeAmount, s.liquidity⟩]
      let (liquidity, tick) ←
        if sqrtPriceX96 == sqrtPriceNextX96 then
          let liquidity :=
            if tickNextInitialized then
              match ticksGet ticks tickNextClamped with
              | some tickData =>
                LiquidityMath.addDelta s.liquidity
                  (if zeroForOne then tickData.liquidityNet * (-1) else tickData.liquidityNet)
              | none => s.liquidity
            else s.liquidity
          pure (liquidity, if zeroForOne then tickNextClamped - 1 else tickNextClamped)
        else if sqrtPriceX96 ≠ sqrtPriceStartX96 then do
          let t ← TickMath.getTickAtSqrtX96 sqrtPriceX96
          pure (s.liquidity, t)
        else
          pure (s.liquidity, s.tick)
      swapLoop ticks fee zeroForOne exactInput sqrtPriceLimitX96 fuel
        ⟨sqrtPriceX96, tick, liquidity, amountSpecifiedRemaining, amountCalculated, steps⟩
    else .ok s

/-- `VirtualPool.swapWithSteps` (`SwapMath.ts` concatenation lines
410-566): resolve the default price limit, validate it (the four `throw`
branches), run the loop on the cloned locals, and only then write
`sqrtPriceX96` / `tick` / `liquidity` back to the pool. -/
def swapWithSteps (p : VirtualPool) (fuel : Nat) (zeroForOne : Bool)
    (amountSpecified : Int) (sqrtPriceLimitOpt : Option Int) :
    Except String ((SwapResult × List SwapStep) × VirtualPool) :=
  if !p.initialized then .error "Pool not initialized"
  else
    let sqrtPriceLimitX96 :=
      match sqrtPriceLimitOpt with
      | some l => l
      | none =>
        if zeroForOne then TickMath.minSqrtPriceX96 + 1 else TickMath.maxSqrtPriceX96 - 1
    if zeroForOne ∧ sqrtPriceLimitX96 ≤ TickMath.minSqrtPriceX96 then .error "RATIO_MIN"
    else if zeroForOne ∧ p.sqrtPriceX96 ≤ sqrtPriceLimitX96 then .error "RATIO_CURRENT"
    else if ¬zeroForOne ∧ TickMath.maxSqrtPriceX96 ≤ sqrtPriceLimitX96 then .error "RATIO_MAX"
    else if ¬zeroForOne ∧ sqrtPriceLimitX96 ≤ p.sqrtPriceX96 then .error "RATIO_CURRENT"
    else
      let exactInput := decide (0 ≤ amountSpecified)
      match swapLoop p.ticks p.fee zeroForOne exactInput sqrtPriceLimitX96 fuel
        ⟨p.sqrtPriceX96, p.tick, p.liquidity, amountSpecified, 0, []⟩ with
      | .error e => .error e
      | .ok s =>
        let (amountIn, amountOut) :=
          if exactInput then
            (amountSpecified - s.amountSpecifiedRemaining, s.amountCalculated * (-1))
          else
            (s.amountCalculated, amountSpecified * (-1) - s.amountSpecifiedRemaining)
        .ok ((⟨amountIn, amountOut, s.sqrtPriceX96, s.tick, s.liquidity⟩, s.steps),
          { p with sqrtPriceX96 := s.sqrtPriceX96, tick := s.tick, liquidity := s.liquidity })

/-- `VirtualPool.swap` (`SwapMath.ts` concatenation lines 395-405). -/
def swap (p : VirtualPool) (fuel : Nat) (zeroForOne : Bool) (amountSpecified : Int) :
    Except String (SwapResult × VirtualPool) :=
  if !p.initialized then .error "Pool not initialized"
  else
    match swapWithSteps p fuel zeroForOne amountSpecified none with
    | .error e => .error e
    | .ok ((result, _), p') => .ok (result, p')

/-- `VirtualPool.simulateSwap` (`SwapMath.ts` concatenation lines 752-771):
run `swap` and restore the saved `sqrtPriceX96` / `tick` / `liquidity` in
a `finally` block, i.e. on both the success and the throw path.  (`swap`
changes no other field, and on a throw its single end-of-loop write-back
never happens, so `this` equals the pre-call pool on the error path.) -/
def simulateSwap (p : VirtualPool) (fuel : Nat) (zeroForOne : Bool)
    (amountSpecified : Int) : Except String SwapResult × VirtualPool :=
  match swap p fuel zeroForOne amountSpecified with
  | .ok (r, p') =>
    (.ok r, { p' with sqrtPriceX96 := p.sqrtPriceX96, tick := p.tick, liquidity := p.liquidity })
  | .error e =>
    (.error e, { p with sqrtPriceX96 := p.sqrtPriceX96, tick := p.tick, liquidity := p.liquidity })

end VirtualPool

/-! ## A concrete pool scenario, shared by the witnesses below

A pool with two 18-decimal tokens, fee 3000 and tick spacing 60 (the
source constructor's defaults), initialized at human price 1 (scaled
integer `10^18`, giving `sqrtPriceX96 = 2^96` and tick 0 exactly), with
one position over `[-60, 60]` sized from one unit of each token. -/

def scenarioPool0 : VirtualPool :=
  ⟨⟨"TOKENA", 18⟩, ⟨"TOKENB", 18⟩, 3000, 60, 0, 0, 0, [], [], false⟩

def scenarioPool1 : VirtualPool :=
  ⟨⟨"TOKENA", 18⟩, ⟨"TOKENB", 18⟩, 3000, 60, 79228162514264337593543950336, 0, 0, [], [],
    true⟩

/-- The liquidity that `maxLiquidityForAmounts` sizes for the scenario
position. -/
def scenarioL : Int := 333850249709699449134

def scenarioPool2 : VirtualPool :=
  { scenarioPool1 with
    liquidity := scenarioL,
    ticks := [(-60, ⟨scenarioL, scenarioL⟩), (60, ⟨-scenarioL, scenarioL⟩)],
    positions := [⟨0, -60, 60, scenarioL⟩] }

/-- The pool after an exact-input swap of `10^15` units of token0 on the
scenario pool. -/
def scenarioPool3 : VirtualPool :=
  { scenarioPool2 with sqrtPriceX96 := 79227925910451096758885928005, tick := -1 }

/-- The pool after an exact-output swap on the scenario pool that drains
the position's entire token1 reserve: the price lands exactly on the tick
boundary `-60`, the crossing code sets `tick := tickNext - 1 = -61`, and
the crossed `liquidityNet` zeroes the active liquidity. -/
def c2Pool : VirtualPool :=
  { scenarioPool2 with
    sqrtPriceX96 := 78990846045029531151608375686, tick := -61, liquidity := 0 }

/-- An initialized pool whose stored `tick` (200) does not match its
`sqrtPriceX96` (`2^96`, the price of tick 0), with an initialized tick at
120 above the price. -/
def c5Pool : VirtualPool :=
  ⟨⟨"TOKENA", 18⟩, ⟨"TOKENB", 18⟩, 3000, 60, 79228162514264337593543950336, 200, 10 ^ 18,
    [(120, ⟨10 ^ 18, 10 ^ 18⟩)], [⟨0, 60, 120, 10 ^ 18⟩], true⟩

/-- The pool `c5Pool` after a `zeroForOne = true` exact-input swap of
`10^6`: the price has moved UP (toward the tick-120 target the
next-tick scan produced). -/
def c5PoolAfter : VirtualPool :=
  { c5Pool with sqrtPriceX96 := 79228162514343328071570671880, tick := 0 }

/-- The swap summary returned with `c2Pool` (exact-output swap of
`999999999999999999` token1 on the scenario pool). -/
def c2SwapResult : SwapResult :=
  ⟨1006022421326722093, 999999999999999999, 78990846045029531151608375686, -61, 0⟩

/-- The single step record of that swap. -/
def c2SwapSteps : List SwapStep :=
  [⟨79228162514264337593543950336, 78990846045029531151608375686, -60,
    1003004354062741926, 999999999999999999, 3018067263980167, 333850249709699449134⟩]

/-- The swap summary returned with `c5PoolAfter`. -/
def c5SwapResult : SwapResult :=
  ⟨1000000, 996999, 79228162514343328071570671880, 0, 10 ^ 18⟩

/-- The step `computeSwapStep` returns for the C3 witness inputs (price
`2^96`, target the price of tick `-60`, liquidity `10^18`, exact input
`10^15`, fee 3000). -/
def c3StepResult : SwapMath.SwapStepResult :=
  ⟨79149250711305166342700278159, 997000000000000, 996006981039903, 3000000000000⟩

/-! ## Reachable pool states and the position-ledger sums -/

/-- The pool states reachable from a freshly constructed pool (the
`VirtualPool` constructor zeroes price, tick and liquidity and starts with
empty ledgers) by the four state-mutating operations.  `swapWithSteps` is
the single write-back point shared by `swap` (which passes
`sqrtPriceLimitX96 = undefined`). -/
inductive Reachable : VirtualPool → Prop where
  | fresh (tokenA tokenB : TokenInfo) (fee tickSpacing : Int) :
      Reachable ⟨tokenA, tokenB, fee, tickSpacing, 0, 0, 0, [], [], false⟩
  | initStep (p p' : VirtualPool) (priceScaled : Nat) (hp : Reachable p)
      (h : VirtualPool.initializePool p priceScaled = .ok p') : Reachable p'
  | addStep (p : VirtualPool) (newId : Nat) (tickLower tickUpper amount0 amount1 : Int)
      (r : AddLiquidityResult) (p' : VirtualPool) (hp : Reachable p)
      (h : VirtualPool.addLiquidity p newId tickLower tickUpper amount0 amount1 =
        .ok (r, p')) : Reachable p'
  | removeStep (p : VirtualPool) (positionId : Nat) (p' : VirtualPool) (hp : Reachable p)
      (h : VirtualPool.removePosition p positionId = .ok p') : Reachable p'
  | swapStep (p : VirtualPool) (fuel : Nat) (zeroForOne : Bool) (amountSpecified : Int)
      (limitOpt : Option Int) (r : SwapResult) (steps : List SwapStep) (p' : VirtualPool)
      (hp : Reachable p)
      (h : VirtualPool.swapWithSteps p fuel zeroForOne amountSpecified limitOpt =
        .ok ((r, steps), p')) : Reachable p'

/-- The gross-liquidity contribution of one position to one tick: its
liquidity counts at its lower and at its upper tick. -/
def grossContrib (q : VirtualPosition) (t : Int) : Int :=
  (if q.tickLower = t then q.liquidity else 0) + (if q.tickUpper = t then q.liquidity else 0)

/-- The gross liquidity the position ledger accounts for at tick `t`. -/
def grossSum (ps : List VirtualPosition) (t : Int) : Int :=
  (ps.map (fun q => grossContrib q t)).sum

/-- The gross liquidity the tick ledger stores at tick `t` (0 when
absent). -/
def grossAt (m : List (Int × TickData)) (t : Int) : Int :=
  ((VirtualPool.ticksGet m t).getD ⟨0, 0⟩).liquidityGross

/-- The ledger invariant maintained by the four mutating operations: the
tick-map keys are distinct (a JavaScript `Map`), every stored position has
positive liquidity and a nonempty range, the stored gross liquidity at
every tick equals the sum the position ledger accounts for there, and a
tick entry is present exactly when that sum is nonzero. -/
def LedgerInv (p : VirtualPool) : Prop :=
  (p.ticks.map Prod.fst).Nodup ∧
  (∀ q ∈ p.positions, 0 < q.liquidity ∧ q.tickLower < q.tickUpper) ∧
  (∀ t, grossAt p.ticks t = grossSum p.positions t) ∧
  (∀ t, (∃ d, VirtualPool.ticksGet p.ticks t = some d) ↔ grossSum p.positions t ≠ 0)

/-! ## Claim C4 — liquidity-ledger underflow detection -/

/-- C4: the spec requires `addDelta(x, y)` to detect the underflow `y < 0`,
`|y| > x` and signal an error.  The code does not: at the failing input
`x = 0`, `y = -1` the port's `addDelta` returns the negative number `-1`
as a normal value (it is a total function performing a plain subtraction,
with no check at all), so a net decrease driving active liquidity negative
passes through silently. -/
theorem C4_addDelta_underflow_not_detected :
    LiquidityMath.addDelta 0 (-1) = -1 ∧ LiquidityMath.addDelta 0 (-1) < 0 := by
  constructor <;> decide

/-! ## Claim C6 — simulateSwap restores the pool state -/

/-- C6: for every pool state and every swap parameter set, after
`simulateSwap` finishes — whether the underlying swap returns a result or
throws — the pool's `sqrtPriceX96`, `tick` and `liquidity` equal their
values before the call. -/
theorem C6_simulateSwap_restores_state (p : VirtualPool) (fuel : Nat)
    (zeroForOne : Bool) (amountSpecified : Int) :
    (VirtualPool.simulateSwap p fuel zeroForOne amountSpecified).2.sqrtPriceX96 =
        p.sqrtPriceX96 ∧
    (VirtualPool.simulateSwap p fuel zeroForOne amountSpecified).2.tick = p.tick ∧
    (VirtualPool.simulateSwap p fuel zeroForOne amountSpecified).2.liquidity =
        p.liquidity := by
  unfold VirtualPool.simulateSwap
  cases VirtualPool.swap p fuel zeroForOne amountSpecified with
  | ok v => exact ⟨rfl, rfl, rfl⟩
  | error e => exact ⟨rfl, rfl, rfl⟩

/-! ## Claim C10 — swap touches only price, tick and liquidity -/

/-- Helper: a successful `swapWithSteps` returns a pool that differs from
the input pool only in `sqrtPriceX96`, `tick` and `liquidity`. -/
theorem swapWithSteps_frame (p : VirtualPool) (fuel : Nat) (zeroForOne : Bool)
    (amountSpecified : Int) (limitOpt : Option Int) (r : SwapResult)
    (steps : List SwapStep) (q : VirtualPool)
    (h : VirtualPool.swapWithSteps p fuel zeroForOne amountSpecified limitOpt =
      .ok ((r, steps), q)) :
    q.ticks = p.ticks ∧ q.positions = p.positions ∧ q.fee = p.fee ∧
    q.tickSpacing = p.tickSpacing ∧ q.tokenA = p.tokenA ∧ q.tokenB = p.tokenB := by
  unfold VirtualPool.swapWithSteps at h
  repeat' first
    | split at h
    | dsimp only [] at h
  all_goals
    first
      | exact Except.noConfusion h
      | (injection h with h1
         injection h1 with h2 h3
         subst h3
         exact ⟨rfl, rfl, rfl, rfl, rfl, rfl⟩)

/-- C10: every successful call to `swap` or `swapWithSteps` leaves the
pool's ticks map, positions list, fee, tick spacing and token info
unchanged; only `sqrtPriceX96`, `tick` and `liquidity` may change.  (On a
throw, the source never reaches its single end-of-loop write-back, so the
pool is untouched; in this embedding the thrown case returns no pool at
all.) -/
theorem C10_swap_frame (p : VirtualPool) (fuel : Nat) (zeroForOne : Bool)
    (amountSpecified : Int) :
    (∀ limitOpt r steps q,
      VirtualPool.swapWithSteps p fuel zeroForOne amountSpecified limitOpt =
          .ok ((r, steps), q) →
        q.ticks = p.ticks ∧ q.positions = p.positions ∧ q.fee = p.fee ∧
        q.tickSpacing = p.tickSpacing ∧ q.tokenA = p.tokenA ∧ q.tokenB = p.tokenB) ∧
    (∀ r q,
      VirtualPool.swap p fuel zeroForOne amountSpecified = .ok (r, q) →
        q.ticks = p.ticks ∧ q.positions = p.positions ∧ q.fee = p.fee ∧
        q.tickSpacing = p.tickSpacing ∧ q.tokenA = p.tokenA ∧ q.tokenB = p.tokenB) := by
  constructor
  · intro limitOpt r steps q h
    exact swapWithSteps_frame p fuel zeroForOne amountSpecified limitOpt r steps q h
  · intro r q h
    unfold VirtualPool.swap at h
    split at h
    · exact Except.noConfusion h
    · revert h
      split
      · intro h; exact Except.noConfusion h
      · next heq =>
        intro h
        injection h with h1
        injection h1 with h2 h3
        subst h3
        exact swapWithSteps_frame p fuel zeroForOne amountSpecified none _ _ _ heq

set_option maxRecDepth 100000 in
theorem scenarioPool1_spec :
    VirtualPool.initializePool scenarioPool0 (10 ^ 18) = .ok scenarioPool1 := by rfl

set_option maxRecDepth 100000 in
theorem scenarioPool2_spec :
    VirtualPool.addLiquidity scenarioPool1 0 (-60) 60 (10 ^ 18) (10 ^ 18) =
      .ok (⟨10 ^ 18, 10 ^ 18, scenarioL, ⟨0, -60, 60, scenarioL⟩⟩, scenarioPool2) := by rfl

set_option maxRecDepth 100000 in
theorem scenarioSwap_spec :
    VirtualPool.swap scenarioPool2 5 true 1000000000000000 =
      .ok (⟨1000000000000000, 996997022599107, 79227925910451096758885928005, -1,
        scenarioL⟩, scenarioPool3) := by rfl

/-- C10 witness: the frame property discharged on the concrete scenario
swap. -/
theorem C10_swap_frame_witness :
    VirtualPool.swap scenarioPool2 5 true 1000000000000000 =
      .ok (⟨1000000000000000, 996997022599107, 79227925910451096758885928005, -1,
        scenarioL⟩, scenarioPool3) ∧
    scenarioPool3.ticks = scenarioPool2.ticks ∧
    scenarioPool3.positions = scenarioPool2.positions :=
  ⟨scenarioSwap_spec,
   ((C10_swap_frame scenarioPool2 5 true 1000000000000000).2 _ scenarioPool3
     scenarioSwap_spec).1,
   ((C10_swap_frame scenarioPool2 5 true 1000000000000000).2 _ scenarioPool3
     scenarioSwap_spec).2.1⟩

/-! ## Tick-map lemmas -/

namespace VirtualPool

theorem lookup_cons (a k : Int) (v : TickData) (es : List (Int × TickData)) :
    List.lookup a ((k, v) :: es) = if a = k then some v else List.lookup a es := by
  by_cases h : a = k
  · subst h; simp [List.lookup]
  · simp [List.lookup, h, beq_eq_false_iff_ne.mpr h]

theorem ticksGet_set_self (m : List (Int × TickData)) (t : Int) (v : TickData) :
    ticksGet (ticksSet m t v) t = some v := by
  induction m with
  | nil => simp [ticksSet, ticksGet, lookup_cons]
  | cons e es ih =>
    by_cases h : e.1 = t
    · simp only [ticksSet, beq_iff_eq, h, if_true]
      simp [ticksGet, lookup_cons]
    · simp only [ticksSet, beq_iff_eq, h, if_false]
      rcases e with ⟨k, w⟩
      simp only [ticksGet] at ih ⊢
      rw [lookup_cons, if_neg (fun hh => h hh.symm)]
      exact ih

theorem ticksGet_set_ne (m : List (Int × TickData)) (t t' : Int) (v : TickData)
    (h : t' ≠ t) : ticksGet (ticksSet m t v) t' = ticksGet m t' := by
  induction m with
  | nil => simp [ticksSet, ticksGet, lookup_cons, h]
  | cons e es ih =>
    rcases e with ⟨k, w⟩
    by_cases he : k = t
    · subst he
      simp only [ticksSet, beq_self_eq_true, if_true]
      simp only [ticksGet, lookup_cons, if_neg h]
    · simp only [ticksSet, beq_iff_eq, he, if_false]
      simp only [ticksGet, lookup_cons] at ih ⊢
      by_cases he' : t' = k
      · simp [he']
      · rw [if_neg he', if_neg he']
        exact ih

theorem ticksGet_delete_ne (m : List (Int × TickData)) (t t' : Int) (h : t' ≠ t) :
    ticksGet (ticksDelete m t) t' = ticksGet m t' := by
  induction m with
  | nil => simp [ticksDelete, ticksGet]
  | cons e es ih =>
    rcases e with ⟨k, w⟩
    simp only [ticksDelete, List.eraseP_cons] at ih ⊢
    by_cases he : k = t
    · subst he
      rw [show ((k == k) = true) from beq_self_eq_true k, Bool.cond_true]
      simp only [ticksGet, lookup_cons, if_neg (show t' ≠ k from h)]
    · rw [show ((k == t) = false) from beq_eq_false_iff_ne.mpr he, Bool.cond_false]
      simp only [ticksGet, lookup_cons] at ih ⊢
      by_cases he' : t' = k
      · rw [if_pos he', if_pos he']
      · rw [if_neg he', if_neg he']
        exact ih

theorem lookup_eq_none_of_not_mem_keys (m : List (Int × TickData)) (t : Int)
    (h : t ∉ m.map Prod.fst) : List.lookup t m = none := by
  induction m with
  | nil => rfl
  | cons e es ih =>
    rcases e with ⟨k, w⟩
    simp only [List.map_cons, List.mem_cons, not_or] at h
    rw [lookup_cons, if_neg h.1]
    exact ih h.2

theorem ticksGet_delete_self (m : List (Int × TickData)) (t : Int)
    (hnd : (m.map Prod.fst).Nodup) : ticksGet (ticksDelete m t) t = none := by
  induction m with
  | nil => simp [ticksDelete, ticksGet]
  | cons e es ih =>
    rcases e with ⟨k, w⟩
    simp only [List.map_cons, List.nodup_cons] at hnd
    simp only [ticksDelete, List.eraseP_cons] at ih ⊢
    by_cases he : k = t
    · subst he
      rw [show ((k == k) = true) from beq_self_eq_true k, Bool.cond_true]
      exact lookup_eq_none_of_not_mem_keys es k hnd.1
    · rw [show ((k == t) = false) from beq_eq_false_iff_ne.mpr he, Bool.cond_false]
      simp only [ticksGet, lookup_cons] at ih ⊢
      rw [if_neg (show t ≠ k from fun hh => he hh.symm)]
      exact ih hnd.2

theorem mem_keys_ticksSet (m : List (Int × TickData)) (t : Int) (v : TickData) (a : Int)
    (h : a ∈ (ticksSet m t v).map Prod.fst) : a ∈ m.map Prod.fst ∨ a = t := by
  induction m with
  | nil =>
    simp only [ticksSet, List.map_cons, List.map_nil, List.mem_singleton] at h
    exact Or.inr h
  | cons e es ih =>
    rcases e with ⟨k, w⟩
    simp only [ticksSet] at h
    by_cases he : k = t
    · simp only [beq_iff_eq, he, if_true, List.map_cons, List.mem_cons] at h
      rcases h with h | h
      · exact Or.inr h
      · exact Or.inl (by simp [h])
    · simp only [beq_iff_eq, he, if_false, List.map_cons, List.mem_cons] at h
      rcases h with h | h
      · exact Or.inl (by simp [h])
      · rcases ih h with h' | h'
        · exact Or.inl (List.mem_cons_of_mem _ h')
        · exact Or.inr h'

theorem ticksSet_nodup (m : List (Int × TickData)) (t : Int) (v : TickData)
    (hnd : (m.map Prod.fst).Nodup) : ((ticksSet m t v).map Prod.fst).Nodup := by
  induction m with
  | nil => simp [ticksSet]
  | cons e es ih =>
    rcases e with ⟨k, w⟩
    simp only [List.map_cons, List.nodup_cons] at hnd
    by_cases he : k = t
    · simp only [ticksSet, beq_iff_eq, he, if_true, List.map_cons, List.nodup_cons]
      exact ⟨he ▸ hnd.1, hnd.2⟩
    · simp only [ticksSet, beq_iff_eq, he, if_false, List.map_cons, List.nodup_cons]
      refine ⟨fun hmem => ?_, ih hnd.2⟩
      rcases mem_keys_ticksSet es t v k hmem with h' | h'
      · exact hnd.1 h'
      · exact he h'

theorem ticksDelete_nodup (m : List (Int × TickData)) (t : Int)
    (hnd : (m.map Prod.fst).Nodup) : ((ticksDelete m t).map Prod.fst).Nodup :=
  (((List.eraseP_sublist m).map Prod.fst).nodup hnd)

theorem updateTickMap_nodup (m : List (Int × TickData)) (t δ : Int) (u : Bool)
    (hnd : (m.map Prod.fst).Nodup) : ((updateTickMap m t δ u).map Prod.fst).Nodup := by
  unfold updateTickMap
  dsimp only []
  split
  · exact ticksDelete_nodup _ _ hnd
  · exact ticksSet_nodup _ _ _ hnd

theorem updateTickMap_get_self (m : List (Int × TickData)) (t δ : Int) (u : Bool)
    (hnd : (m.map Prod.fst).Nodup) :
    ticksGet (updateTickMap m t δ u) t =
      (if ((ticksGet m t).getD ⟨0, 0⟩).liquidityGross + δ = 0 then none
       else some ⟨(if u then ((ticksGet m t).getD ⟨0, 0⟩).liquidityNet - δ
                   else ((ticksGet m t).getD ⟨0, 0⟩).liquidityNet + δ),
                  ((ticksGet m t).getD ⟨0, 0⟩).liquidityGross + δ⟩) := by
  unfold updateTickMap
  dsimp only []
  cases u <;>
    (split
     case isTrue hzero =>
       have hz' : ((ticksGet m t).getD ⟨0, 0⟩).liquidityGross + δ = 0 := by
         simpa using hzero
       rw [if_pos hz']
       exact ticksGet_delete_self _ _ hnd
     case isFalse hzero =>
       have hz' : ¬(((ticksGet m t).getD ⟨0, 0⟩).liquidityGross + δ = 0) := by
         simpa using hzero
       rw [if_neg hz']
       exact ticksGet_set_self _ _ _)

theorem updateTickMap_get_ne (m : List (Int × TickData)) (t δ : Int) (u : Bool)
    (t' : Int) (h : t' ≠ t) :
    ticksGet (updateTickMap m t δ u) t' = ticksGet m t' := by
  unfold updateTickMap
  dsimp only []
  split
  · exact ticksGet_delete_ne _ _ _ h
  · exact ticksGet_set_ne _ _ _ _ h

theorem getD_gross_nonneg (m : List (Int × TickData)) (t : Int)
    (hwf : ∀ d, ticksGet m t = some d → 0 < d.liquidityGross) :
    0 ≤ ((ticksGet m t).getD ⟨0, 0⟩).liquidityGross := by
  cases hg : ticksGet m t with
  | none => simp [hg]
  | some d => simpa [hg] using (hwf d hg).le

theorem updateTickMap_roundtrip (m : List (Int × TickData)) (lo hi L : Int)
    (hne : lo ≠ hi) (hnd : (m.map Prod.fst).Nodup) (hL : 0 < L)
    (hlo : ∀ d, ticksGet m lo = some d → 0 < d.liquidityGross)
    (hhi : ∀ d, ticksGet m hi = some d → 0 < d.liquidityGross) (t : Int) :
    ticksGet (updateTickMap (updateTickMap (updateTickMap (updateTickMap m lo L false)
      hi L true) lo (-L) false) hi (-L) true) t = ticksGet m t := by
  have hnehl : hi ≠ lo := fun hh => hne hh.symm
  have hnd1 : (((updateTickMap m lo L false).map Prod.fst)).Nodup :=
    updateTickMap_nodup m lo L false hnd
  have hnd2 : (((updateTickMap (updateTickMap m lo L false) hi L true).map Prod.fst)).Nodup :=
    updateTickMap_nodup _ hi L true hnd1
  have hnd3 : (((updateTickMap (updateTickMap (updateTickMap m lo L false) hi L true)
      lo (-L) false).map Prod.fst)).Nodup :=
    updateTickMap_nodup _ lo (-L) false hnd2
  have hglo : 0 ≤ ((ticksGet m lo).getD ⟨0, 0⟩).liquidityGross := getD_gross_nonneg m lo hlo
  have hghi : 0 ≤ ((ticksGet m hi).getD ⟨0, 0⟩).liquidityGross := getD_gross_nonneg m hi hhi
  have h1lo : ticksGet (updateTickMap m lo L false) lo =
      some ⟨((ticksGet m lo).getD ⟨0, 0⟩).liquidityNet + L,
            ((ticksGet m lo).getD ⟨0, 0⟩).liquidityGross + L⟩ := by
    rw [updateTickMap_get_self m lo L false hnd, if_neg (by omega)]
    rfl
  have h1hi : ticksGet (updateTickMap m lo L false) hi = ticksGet m hi :=
    updateTickMap_get_ne m lo L false hi hnehl
  have h2hi : ticksGet (updateTickMap (updateTickMap m lo L false) hi L true) hi =
      some ⟨((ticksGet m hi).getD ⟨0, 0⟩).liquidityNet - L,
            ((ticksGet m hi).getD ⟨0, 0⟩).liquidityGross + L⟩ := by
    rw [updateTickMap_get_self _ hi L true hnd1, h1hi, if_neg (by omega)]
    rfl
  have h2lo : ticksGet (updateTickMap (updateTickMap m lo L false) hi L true) lo =
      some ⟨((ticksGet m lo).getD ⟨0, 0⟩).liquidityNet + L,
            ((ticksGet m lo).getD ⟨0, 0⟩).liquidityGross + L⟩ := by
    rw [updateTickMap_get_ne _ hi L true lo hne, h1lo]
  have h3lo : ticksGet (updateTickMap (updateTickMap (updateTickMap m lo L false) hi L true)
      lo (-L) false) lo = ticksGet m lo := by
    rw [updateTickMap_get_self _ lo (-L) false hnd2, h2lo]
    cases hg : ticksGet m lo with
    | none =>
      simp only [Option.getD_none, Option.getD_some]
      norm_num
    | some d =>
      have hd : 0 < d.liquidityGross := hlo d hg
      rcases d with ⟨dn, dg⟩
      dsimp only [] at hd
      simp only [Option.getD_some]
      rw [if_neg (by omega)]
      norm_num
  have h3hi : ticksGet (updateTickMap (updateTickMap (updateTickMap m lo L false) hi L true)
      lo (-L) false) hi =
      some ⟨((ticksGet m hi).getD ⟨0, 0⟩).liquidityNet - L,
            ((ticksGet m hi).getD ⟨0, 0⟩).liquidityGross + L⟩ := by
    rw [updateTickMap_get_ne _ lo (-L) false hi hnehl, h2hi]
  have h4hi : ticksGet (updateTickMap (updateTickMap (updateTickMap (updateTickMap m lo L
      false) hi L true) lo (-L) false) hi (-L) true) hi = ticksGet m hi := by
    rw [updateTickMap_get_self _ hi (-L) true hnd3, h3hi]
    cases hg : ticksGet m hi with
    | none =>
      simp only [Option.getD_none, Option.getD_some]
      norm_num
    | some d =>
      have hd : 0 < d.liquidityGross := hhi d hg
      rcases d with ⟨dn, dg⟩
      dsimp only [] at hd
      simp only [Option.getD_some]
      rw [if_neg (by omega)]
      norm_num
  by_cases ht : t = hi
  · subst ht; exact h4hi
  · rw [updateTickMap_get_ne _ hi (-L) true t ht]
    by_cases ht' : t = lo
    · subst ht'; exact h3lo
    · rw [updateTickMap_get_ne _ lo (-L) false t ht',
        updateTickMap_get_ne _ hi L true t ht,
        updateTickMap_get_ne _ lo L false t ht']

theorem find?_append_singleton {α : Type} (pr : α → Bool) (l : List α) (x : α)
    (hl : ∀ y ∈ l, pr y = false) (hx : pr x = true) :
    List.find? pr (l ++ [x]) = some x := by
  induction l with
  | nil => simp [List.find?, hx]
  | cons a as ih =>
    have ha : pr a = false := hl a (List.mem_cons_self a as)
    simp only [List.cons_append, List.find?, ha]
    exact ih (fun y hy => hl y (List.mem_cons_of_mem a hy))

theorem find?_decomp {α : Type} (pr : α → Bool) (l : List α) (x : α)
    (h : l.find? pr = some x) :
    ∃ l1 l2, l = l1 ++ x :: l2 ∧ (∀ y ∈ l1, pr y = false) ∧ pr x = true ∧
      l.eraseP pr = l1 ++ l2 := by
  induction l with
  | nil => simp [List.find?] at h
  | cons a as ih =>
    cases ha : pr a with
    | true =>
      rw [List.find?_cons_of_pos _ ha] at h
      injection h with h1
      subst h1
      exact ⟨[], as, rfl, by simp, ha, by simp [List.eraseP_cons, ha]⟩
    | false =>
      rw [List.find?_cons_of_neg _ (by simp [ha])] at h
      obtain ⟨l1, l2, hsplit, hpre, hx, herase⟩ := ih h
      refine ⟨a :: l1, l2, by rw [hsplit]; rfl, ?_, hx, ?_⟩
      · intro y hy
        rcases List.mem_cons.mp hy with hy | hy
        · subst hy; exact ha
        · exact hpre y hy
      · simp [List.eraseP_cons, ha, herase]

theorem grossAt_update_self (m : List (Int × TickData)) (t δ : Int) (u : Bool)
    (hnd : (m.map Prod.fst).Nodup) :
    grossAt (updateTickMap m t δ u) t = grossAt m t + δ := by
  unfold grossAt
  rw [updateTickMap_get_self m t δ u hnd]
  by_cases h0 : ((ticksGet m t).getD ⟨0, 0⟩).liquidityGross + δ = 0
  · rw [if_pos h0]
    simpa using h0.symm
  · rw [if_neg h0]
    rfl

theorem grossAt_update_ne (m : List (Int × TickData)) (t δ : Int) (u : Bool)
    (t' : Int) (h : t' ≠ t) : grossAt (updateTickMap m t δ u) t' = grossAt m t' := by
  unfold grossAt
  rw [updateTickMap_get_ne m t δ u t' h]

theorem presence_update_self (m : List (Int × TickData)) (t δ : Int) (u : Bool)
    (hnd : (m.map Prod.fst).Nodup) :
    (∃ d, ticksGet (updateTickMap m t δ u) t = some d) ↔ grossAt m t + δ ≠ 0 := by
  rw [updateTickMap_get_self m t δ u hnd]
  unfold grossAt
  by_cases h0 : ((ticksGet m t).getD ⟨0, 0⟩).liquidityGross + δ = 0
  · rw [if_pos h0]
    simp [h0]
  · rw [if_neg h0]
    simp [h0]

theorem presence_update_ne (m : List (Int × TickData)) (t δ : Int) (u : Bool)
    (t' : Int) (h : t' ≠ t) :
    (∃ d, ticksGet (updateTickMap m t δ u) t' = some d) ↔
      (∃ d, ticksGet m t' = some d) := by
  rw [updateTickMap_get_ne m t δ u t' h]

theorem grossSum_append_one (ps : List VirtualPosition) (q : VirtualPosition) (t : Int) :
    grossSum (ps ++ [q]) t = grossSum ps t + grossContrib q t := by
  unfold grossSum
  rw [List.map_append, List.sum_append]
  simp [grossContrib]

theorem grossSum_split (l1 l2 : List VirtualPosition) (q : VirtualPosition) (t : Int) :
    grossSum (l1 ++ q :: l2) t = grossSum (l1 ++ l2) t + grossContrib q t := by
  unfold grossSum
  rw [List.map_append, List.sum_append, List.map_cons, List.sum_cons,
    List.map_append, List.sum_append]
  ring

theorem grossSum_nonneg (ps : List VirtualPosition) (t : Int)
    (h : ∀ q ∈ ps, 0 < q.liquidity) : 0 ≤ grossSum ps t := by
  unfold grossSum
  refine List.sum_nonneg ?_
  intro x hx
  rcases List.mem_map.mp hx with ⟨q, hq, rfl⟩
  have := h q hq
  unfold grossContrib
  have h1 : 0 ≤ (if q.tickLower = t then q.liquidity else 0) := by
    split <;> omega
  have h2 : 0 ≤ (if q.tickUpper = t then q.liquidity else 0) := by
    split <;> omega
  omega

end VirtualPool

/-! ## Division and delta helper lemmas -/

theorem jsbiDiv_ok (a b : Int) (hb : b ≠ 0) : jsbiDiv a b = .ok (a.tdiv b) := by
  simp [jsbiDiv, hb]

theorem mulDivRoundingUp_zero_left (b d : Int) (hd : d ≠ 0) :
    FullMath.mulDivRoundingUp 0 b d = .ok 0 := by
  simp [FullMath.mulDivRoundingUp, jsbiDiv, jsbiRem, hd, Int.zero_tdiv, Int.zero_tmod]

theorem getAmount0Delta_zero_liq (A B : Int) (hA : 0 < A) (hB : 0 < B) (roundUp : Bool) :
    SqrtPriceMath.getAmount0Delta A B 0 roundUp = .ok 0 := by
  unfold SqrtPriceMath.getAmount0Delta
  rcases le_or_lt A B with hAB | hAB
  · rw [if_neg (not_lt.mpr hAB)]
    cases roundUp <;> simp [mulDivRoundingUp_zero_left, jsbiDiv, hA.ne', hB.ne',
      Int.zero_tdiv, FullMath.mulDivRoundingUp, jsbiRem, Int.zero_tmod]
  · rw [if_pos hAB]
    cases roundUp <;> simp [mulDivRoundingUp_zero_left, jsbiDiv, hA.ne', hB.ne',
      Int.zero_tdiv, FullMath.mulDivRoundingUp, jsbiRem, Int.zero_tmod]

theorem getAmount1Delta_zero_liq (A B : Int) (roundUp : Bool) :
    SqrtPriceMath.getAmount1Delta A B 0 roundUp = .ok 0 := by
  unfold SqrtPriceMath.getAmount1Delta
  split <;> cases roundUp <;>
    simp [FullMath.mulDivRoundingUp, jsbiDiv, jsbiRem, Int.zero_tdiv, Int.zero_tmod]

/-! ## Claim C8 — zero-liquidity short circuit -/

/-- C8: with `liquidity = 0` and sqrt prices in the valid range,
`computeSwapStep` returns "price jumps straight to the target, zero
in/out/fee", for every remaining amount and every fee below 100%. -/
theorem C8_zero_liquidity_short_circuit (sqrtCurrent sqrtTarget amountRemaining feePips : Int)
    (hc1 : TickMath.minSqrtPriceX96 ≤ sqrtCurrent) (hc2 : sqrtCurrent < TickMath.maxSqrtPriceX96)
    (ht1 : TickMath.minSqrtPriceX96 ≤ sqrtTarget) (ht2 : sqrtTarget < TickMath.maxSqrtPriceX96)
    (hf1 : 0 ≤ feePips) (hf2 : feePips < 1000000) :
    SwapMath.computeSwapStep sqrtCurrent sqrtTarget 0 amountRemaining feePips =
      .ok ⟨sqrtTarget, 0, 0, 0⟩ := by
  have hC : (0 : Int) < sqrtCurrent := lt_of_lt_of_le (by decide) hc1
  have hT : (0 : Int) < sqrtTarget := lt_of_lt_of_le (by decide) ht1
  have hk : (MAX_FEE - feePips) ≠ 0 := by unfold MAX_FEE; omega
  have hM : (MAX_FEE : Int) ≠ 0 := by unfold MAX_FEE; omega
  unfold SwapMath.computeSwapStep
  by_cases hex : 0 ≤ amountRemaining
  · have hnn : (0:Int) ≤ (amountRemaining * (MAX_FEE - feePips)).tdiv MAX_FEE :=
      Int.tdiv_nonneg (Int.mul_nonneg hex (by unfold MAX_FEE; omega))
        (by unfold MAX_FEE; omega)
    by_cases hz : sqrtTarget ≤ sqrtCurrent
    · simp [hex, hz, jsbiDiv_ok _ _ hM, getAmount0Delta_zero_liq _ _ hT hC,
        getAmount1Delta_zero_liq, mulDivRoundingUp_zero_left _ _ hk, hnn]
    · simp [hex, hz, jsbiDiv_ok _ _ hM, getAmount0Delta_zero_liq _ _ hC hT,
        getAmount1Delta_zero_liq, mulDivRoundingUp_zero_left _ _ hk, hnn]
  · by_cases hz : sqrtTarget ≤ sqrtCurrent
    · simp [hex, hz, getAmount0Delta_zero_liq _ _ hT hC, getAmount1Delta_zero_liq,
        mulDivRoundingUp_zero_left _ _ hk,
        show amountRemaining ≤ (0:Int) from by omega,
        show ¬(-amountRemaining < (0:Int)) from by omega]
    · simp [hex, hz, getAmount0Delta_zero_liq _ _ hC hT, getAmount1Delta_zero_liq,
        mulDivRoundingUp_zero_left _ _ hk,
        show amountRemaining ≤ (0:Int) from by omega,
        show ¬(-amountRemaining < (0:Int)) from by omega]

/-- C8 witness: the zero-liquidity short circuit at a concrete price pair
(the prices of ticks 0 and -60) and a concrete exact-input amount. -/
theorem C8_zero_liquidity_witness :
    SwapMath.computeSwapStep 79228162514264337593543950336 78990846045029531151608375686 0
      12345 3000 = .ok ⟨78990846045029531151608375686, 0, 0, 0⟩ :=
  C8_zero_liquidity_short_circuit _ _ _ _ (by decide) (by decide) (by decide) (by decide)
    (by decide) (by decide)

/-! ## Claim C7 — addLiquidity then removePosition restores the ledger -/

namespace VirtualPool

/-- C7: for every pool state with distinct tick-map keys, positive stored
gross liquidity, and no position already bearing the fresh id (the
source's `uuidv4()` draw), every successful `addLiquidity` call followed
immediately by `removePosition` on the produced position succeeds and
yields a pool whose active liquidity and whose ticks map (every entry,
and the set of present ticks) are exactly those of the starting state. -/
theorem C7_add_remove_restores_ledger (p : VirtualPool) (newId : Nat)
    (tickLower tickUpper amount0Desired amount1Desired : Int)
    (r : AddLiquidityResult) (p' : VirtualPool)
    (hnd : (p.ticks.map Prod.fst).Nodup)
    (hwf : ∀ t d, ticksGet p.ticks t = some d → 0 < d.liquidityGross)
    (hfresh : ∀ q ∈ p.positions, q.id ≠ newId)
    (h : addLiquidity p newId tickLower tickUpper amount0Desired amount1Desired =
      .ok (r, p')) :
    ∃ p'', removePosition p' r.position.id = .ok p'' ∧
      p''.liquidity = p.liquidity ∧
      ∀ t, ticksGet p''.ticks t = ticksGet p.ticks t := by
  have hfind : ∀ lo hi LL : Int,
      List.find? (fun q => q.id == newId)
        (p.positions ++ [(⟨newId, lo, hi, LL⟩ : VirtualPosition)]) =
        some ⟨newId, lo, hi, LL⟩ := by
    intro lo hi LL
    refine find?_append_singleton _ _ _ (fun y hy => ?_) (by simp)
    simpa using hfresh y hy
  unfold addLiquidity at h
  repeat' first
    | split at h
    | dsimp only [updateTick] at h
  all_goals try exact Except.noConfusion h
  all_goals (
    injection h with h1
    injection h1 with hr hp'
    subst hp'
    subst hr
    unfold removePosition
    dsimp only [updateTick]
    rw [hfind]
    dsimp only []
    refine ⟨_, rfl, ?_, ?_⟩
    · dsimp only []
      split <;> omega
    · intro t
      dsimp only []
      rw [show ∀ x : Int, x * -1 = -x from fun x => by ring]
      refine updateTickMap_roundtrip p.ticks _ _ _ (by omega) hnd (by omega)
        (fun d hd => hwf _ d hd) (fun d hd => hwf _ d hd) t)

end VirtualPool

set_option maxRecDepth 100000 in
/-- C7 witness: the concrete scenario — add the `[-60, 60]` position to the
freshly initialized pool, then remove it. -/
theorem C7_add_remove_witness :
    ∃ p'', VirtualPool.removePosition scenarioPool2 0 = .ok p'' ∧
      p''.liquidity = scenarioPool1.liquidity ∧
      ∀ t, VirtualPool.ticksGet p''.ticks t = VirtualPool.ticksGet scenarioPool1.ticks t := by
  have h := VirtualPool.C7_add_remove_restores_ledger scenarioPool1 0 (-60) 60 (10 ^ 18)
    (10 ^ 18) ⟨10 ^ 18, 10 ^ 18, scenarioL, ⟨0, -60, 60, scenarioL⟩⟩ scenarioPool2
    (by simp [scenarioPool1])
    (by intro t d hd; simp [scenarioPool1, VirtualPool.ticksGet, List.lookup] at hd)
    (by intro q hq; simp [scenarioPool1] at hq)
    scenarioPool2_spec
  simpa using h

/-! ## Claim C9 — a tick is stored iff its gross liquidity is positive -/

namespace VirtualPool

theorem ledgerInv_fresh (tA tB : TokenInfo) (fee ts : Int) :
    LedgerInv ⟨tA, tB, fee, ts, 0, 0, 0, [], [], false⟩ := by
  refine ⟨by simp, by simp, fun t => ?_, fun t => ?_⟩
  · simp [grossAt, grossSum, ticksGet, List.lookup]
  · simp [grossSum, ticksGet, List.lookup]

theorem ledgerInv_init (p p' : VirtualPool) (x : Nat) (ih : LedgerInv p)
    (h : initializePool p x = .ok p') : LedgerInv p' := by
  unfold initializePool at h
  repeat' first
    | split at h
    | dsimp only [] at h
  all_goals try exact Except.noConfusion h
  all_goals (
    injection h with h1
    subst h1
    exact ih)

theorem ledgerInv_add (p : VirtualPool) (newId : Nat) (tl tu a0 a1 : Int)
    (r : AddLiquidityResult) (p' : VirtualPool) (ih : LedgerInv p)
    (h : addLiquidity p newId tl tu a0 a1 = .ok (r, p')) : LedgerInv p' := by
  obtain ⟨hnd, hqwf, hgs, hpr⟩ := ih
  unfold addLiquidity at h
  repeat' first
    | split at h
    | dsimp only [updateTick] at h
  all_goals try exact Except.noConfusion h
  all_goals (
    injection h with h1
    injection h1 with hr hp'
    subst hp'
    refine ⟨?_, ?_, fun t => ?_, fun t => ?_⟩
    · exact updateTickMap_nodup _ _ _ _ (updateTickMap_nodup _ _ _ _ hnd)
    · intro q hq
      rcases List.mem_append.mp hq with hq | hq
      · exact hqwf q hq
      · rw [List.mem_singleton.mp hq]
        try dsimp only []
        constructor <;> omega
    · rw [grossSum_append_one]
      by_cases hthi : t = nearestUsableTick tu p.tickSpacing
      · subst hthi
        rw [grossAt_update_self _ _ _ _ (updateTickMap_nodup _ _ _ _ hnd),
          grossAt_update_ne _ _ _ _ _ (by omega), hgs]
        simp only [grossContrib]
        try dsimp only []
        split_ifs <;> omega
      · rw [grossAt_update_ne _ _ _ _ _ hthi]
        by_cases htlo : t = nearestUsableTick tl p.tickSpacing
        · subst htlo
          rw [grossAt_update_self _ _ _ _ hnd, hgs]
          simp only [grossContrib]
          try dsimp only []
          split_ifs <;> omega
        · rw [grossAt_update_ne _ _ _ _ _ htlo, hgs]
          simp only [grossContrib]
          try dsimp only []
          split_ifs <;> omega
    · rw [grossSum_append_one]
      by_cases hthi : t = nearestUsableTick tu p.tickSpacing
      · subst hthi
        rw [presence_update_self _ _ _ _ (updateTickMap_nodup _ _ _ _ hnd),
          grossAt_update_ne _ _ _ _ _ (by omega), hgs]
        simp only [grossContrib]
        try dsimp only []
        split_ifs <;> omega
      · rw [presence_update_ne _ _ _ _ _ hthi]
        by_cases htlo : t = nearestUsableTick tl p.tickSpacing
        · subst htlo
          rw [presence_update_self _ _ _ _ hnd, hgs]
          simp only [grossContrib]
          try dsimp only []
          split_ifs <;> omega
        · rw [presence_update_ne _ _ _ _ _ htlo, hpr]
          simp only [grossContrib]
          try dsimp only []
          split_ifs <;> omega)

theorem ledgerInv_remove (p : VirtualPool) (pid : Nat) (p' : VirtualPool)
    (ih : LedgerInv p) (h : removePosition p pid = .ok p') : LedgerInv p' := by
  obtain ⟨hnd, hqwf, hgs, hpr⟩ := ih
  unfold removePosition at h
  split at h
  · exact Except.noConfusion h
  · rename_i q heq
    dsimp only [updateTick] at h
    injection h with h1
    subst h1
    obtain ⟨hL, hlh⟩ := hqwf q (List.mem_of_find?_eq_some heq)
    obtain ⟨l1, l2, hsplit, hpre, hqx, herase⟩ := find?_decomp _ _ _ heq
    have hsum : ∀ t, grossSum (p.positions.eraseP (fun q2 => q2.id == pid)) t =
        grossSum p.positions t - grossContrib q t := by
      intro t
      rw [herase]
      conv_rhs => rw [hsplit]
      rw [grossSum_split]
      ring
    refine ⟨?_, ?_, fun t => ?_, fun t => ?_⟩
    · exact updateTickMap_nodup _ _ _ _ (updateTickMap_nodup _ _ _ _ hnd)
    · intro q2 hq2
      apply hqwf
      rw [herase] at hq2
      rw [hsplit]
      rcases List.mem_append.mp hq2 with hq2 | hq2
      · exact List.mem_append.mpr (Or.inl hq2)
      · exact List.mem_append.mpr (Or.inr (List.mem_cons_of_mem _ hq2))
    · rw [hsum]
      rw [show q.liquidity * (-1) = -q.liquidity from by ring]
      by_cases hthi : t = q.tickUpper
      · subst hthi
        rw [grossAt_update_self _ _ _ _ (updateTickMap_nodup _ _ _ _ hnd),
          grossAt_update_ne _ _ _ _ _ (by omega), hgs]
        simp only [grossContrib]
        split_ifs <;> omega
      · rw [grossAt_update_ne _ _ _ _ _ hthi]
        by_cases htlo : t = q.tickLower
        · subst htlo
          rw [grossAt_update_self _ _ _ _ hnd, hgs]
          simp only [grossContrib]
          split_ifs <;> omega
        · rw [grossAt_update_ne _ _ _ _ _ htlo, hgs]
          simp only [grossContrib]
          split_ifs <;> omega
    · rw [hsum]
      rw [show q.liquidity * (-1) = -q.liquidity from by ring]
      by_cases hthi : t = q.tickUpper
      · subst hthi
        rw [presence_update_self _ _ _ _ (updateTickMap_nodup _ _ _ _ hnd),
          grossAt_update_ne _ _ _ _ _ (by omega), hgs]
        simp only [grossContrib]
        split_ifs <;> omega
      · rw [presence_update_ne _ _ _ _ _ hthi]
        by_cases htlo : t = q.tickLower
        · subst htlo
          rw [presence_update_self _ _ _ _ hnd, hgs]
          simp only [grossContrib]
          split_ifs <;> omega
        · rw [presence_update_ne _ _ _ _ _ htlo, hpr]
          simp only [grossContrib]
          split_ifs <;> omega

theorem ledgerInv_swap (p : VirtualPool) (fuel : Nat) (zfo : Bool) (amt : Int)
    (limitOpt : Option Int) (r : SwapResult) (steps : List SwapStep) (p' : VirtualPool)
    (ih : LedgerInv p)
    (h : swapWithSteps p fuel zfo amt limitOpt = .ok ((r, steps), p')) : LedgerInv p' := by
  obtain ⟨hticks, hpos, -⟩ := swapWithSteps_frame p fuel zfo amt limitOpt r steps p' h
  obtain ⟨hnd, hqwf, hgs, hpr⟩ := ih
  refine ⟨?_, ?_, fun t => ?_, fun t => ?_⟩
  · rw [hticks]; exact hnd
  · rw [hpos]; exact hqwf
  · rw [hticks, hpos]; exact hgs t
  · rw [hticks, hpos]; exact hpr t

theorem ledgerInv_reachable (p : VirtualPool) (hp : Reachable p) : LedgerInv p := by
  induction hp with
  | fresh tA tB fee ts => exact ledgerInv_fresh tA tB fee ts
  | initStep p p' x hp h ih => exact ledgerInv_init p p' x ih h
  | addStep p newId tl tu a0 a1 r p' hp h ih =>
    exact ledgerInv_add p newId tl tu a0 a1 r p' ih h
  | removeStep p pid p' hp h ih => exact ledgerInv_remove p pid p' ih h
  | swapStep p fuel zfo amt limitOpt r steps p' hp h ih =>
    exact ledgerInv_swap p fuel zfo amt limitOpt r steps p' ih h

theorem reachable_stored_gross_pos (p : VirtualPool) (hp : Reachable p) :
    ∀ t d, ticksGet p.ticks t = some d → 0 < d.liquidityGross := by
  obtain ⟨hnd, hqwf, hgs, hpr⟩ := ledgerInv_reachable p hp
  intro t d hd
  have hne : grossSum p.positions t ≠ 0 := (hpr t).mp ⟨d, hd⟩
  have hnn : 0 ≤ grossSum p.positions t := grossSum_nonneg _ _ (fun q hq => (hqwf q hq).1)
  have hat : grossAt p.ticks t = d.liquidityGross := by
    unfold grossAt
    rw [hd]
    rfl
  have := hgs t
  omega

end VirtualPool

/-- C9: in every reachable pool state the ticks map contains an entry for
a tick `t` if and only if that entry's `liquidityGross` is strictly
positive — equivalently, no stored tick entry ever carries
`liquidityGross ≤ 0`. -/
theorem C9_tick_present_iff_gross_positive (p : VirtualPool) (hp : Reachable p) (t : Int) :
    (∃ d, VirtualPool.ticksGet p.ticks t = some d) ↔
      (∃ d, VirtualPool.ticksGet p.ticks t = some d ∧ 0 < d.liquidityGross) := by
  constructor
  · rintro ⟨d, hd⟩
    exact ⟨d, hd, VirtualPool.reachable_stored_gross_pos p hp t d hd⟩
  · rintro ⟨d, hd, -⟩
    exact ⟨d, hd⟩

set_option maxRecDepth 100000 in
/-- C9 witness: the scenario pool with one `[-60, 60]` position is
reachable (construct, initialize, add liquidity), stores tick `-60`, and
the equivalence turns that into a positive stored gross liquidity. -/
theorem C9_tick_present_witness :
    ∃ d, VirtualPool.ticksGet scenarioPool2.ticks (-60) = some d ∧ 0 < d.liquidityGross := by
  have h0 : Reachable scenarioPool0 :=
    Reachable.fresh ⟨"TOKENA", 18⟩ ⟨"TOKENB", 18⟩ 3000 60
  have h1 : Reachable scenarioPool1 :=
    Reachable.initStep scenarioPool0 scenarioPool1 (10 ^ 18) h0 scenarioPool1_spec
  have h2 : Reachable scenarioPool2 :=
    Reachable.addStep scenarioPool1 0 (-60) 60 (10 ^ 18) (10 ^ 18)
      ⟨10 ^ 18, 10 ^ 18, scenarioL, ⟨0, -60, 60, scenarioL⟩⟩ scenarioPool2 h1
      scenarioPool2_spec
  exact (C9_tick_present_iff_gross_positive scenarioPool2 h2 (-60)).mp
    ⟨⟨scenarioL, scenarioL⟩, by rfl⟩

/-! ## Claim C1 — the tick / sqrt-price round trip -/

set_option maxRecDepth 100000 in
/-- C1: the claimed round trip fails at the topmost tick of the claimed
range `[-887272, 887272]`: `getSqrtRatioAtTick 887272` returns exactly
`MAX_SQRT_RATIO`, and `getTickAtSqrtRatio` rejects any input `>=
MAX_SQRT_RATIO`, so `getTickAtSqrtRatio (getSqrtRatioAtTick 887272)`
throws `SQRT_RATIO_OUT_OF_BOUNDS` instead of returning `887272`. -/
theorem C1_roundtrip_fails_at_max_tick :
    TickMath.getSqrtRatioAtTick 887272 = .ok TickMath.maxSqrtPriceX96 ∧
    TickMath.getTickAtSqrtX96 TickMath.maxSqrtPriceX96 =
      .error "SQRT_RATIO_OUT_OF_BOUNDS" :=
  ⟨by rfl, by rfl⟩

/-! ## Claim C2 — the tick / price bracket invariant -/

set_option maxRecDepth 100000 in
/-- The exact-output swap that drains the scenario position's token1:
it lands exactly on the `-60` tick boundary. -/
theorem c2Swap_spec :
    VirtualPool.swapWithSteps scenarioPool2 5 true (-999999999999999999) none =
      .ok ((c2SwapResult, c2SwapSteps), c2Pool) := by rfl

/-- C2: violated in a reachable state.  After initialize, addLiquidity
over `[-60, 60]` and an exact-output swap that lands exactly on the lower
tick boundary, the crossing code sets `tick := tickNext - 1 = -61` while
the price stays at `getSqrtRatioAtTick (-60)`; hence `sqrtPriceX96 <
getSqrtRatioAtTick (tick + 1)` fails (the two sides are equal). -/
theorem C2_tick_price_invariant_violated :
    Reachable c2Pool ∧
    ∃ ratioUp, TickMath.getSqrtRatioAtTick (c2Pool.tick + 1) = .ok ratioUp ∧
      ¬(c2Pool.sqrtPriceX96 < ratioUp) := by
  constructor
  · have h0 : Reachable scenarioPool0 :=
      Reachable.fresh ⟨"TOKENA", 18⟩ ⟨"TOKENB", 18⟩ 3000 60
    have h1 : Reachable scenarioPool1 :=
      Reachable.initStep scenarioPool0 scenarioPool1 (10 ^ 18) h0 scenarioPool1_spec
    have h2 : Reachable scenarioPool2 :=
      Reachable.addStep scenarioPool1 0 (-60) 60 (10 ^ 18) (10 ^ 18)
        ⟨10 ^ 18, 10 ^ 18, scenarioL, ⟨0, -60, 60, scenarioL⟩⟩ scenarioPool2 h1
        scenarioPool2_spec
    exact Reachable.swapStep scenarioPool2 5 true (-999999999999999999) none
      c2SwapResult c2SwapSteps c2Pool h2 c2Swap_spec
  · exact ⟨c2Pool.sqrtPriceX96, by rfl, by omega⟩

/-! ## Claim C5 — zeroForOne price monotonicity -/

set_option maxRecDepth 100000 in
/-- The successful `zeroForOne` swap on `c5Pool` that raises the price. -/
theorem c5Swap_spec :
    VirtualPool.swap c5Pool 5 true 1000000 = .ok (c5SwapResult, c5PoolAfter) := by rfl

/-- C5: violated as stated.  `c5Pool` is an initialized pool (the claim
quantifies over every initialized pool; this one's stored `tick`, 200, is
stale relative to its `sqrtPriceX96`, the price of tick 0), and a
successful `zeroForOne = true` swap on it RAISES the price: the next-tick
scan runs from the stale tick, finds initialized tick 120 ABOVE the
actual price, and the step moves the price up toward that target. -/
theorem C5_zeroForOne_price_can_increase :
    c5Pool.initialized = true ∧
    ∃ res q, VirtualPool.swap c5Pool 5 true 1000000 = .ok (res, q) ∧
      c5Pool.sqrtPriceX96 < res.sqrtPriceX96After :=
  ⟨rfl, c5SwapResult, c5PoolAfter, c5Swap_spec, by decide⟩

/-! ## Ceiling/floor division facts and next-price bounds (toolkit for C3) -/

theorem jsbiDiv_le_iff (a b r : Int) (ha : 0 ≤ a) (hb : 0 < b)
    (h : jsbiDiv a b = .ok r) : ∀ z : Int, z ≤ r ↔ z * b ≤ a := by
  intro z
  unfold jsbiDiv at h
  rw [if_neg (by simpa using hb.ne')] at h
  injection h with h1
  subst h1
  rw [Int.tdiv_eq_ediv ha hb.le]
  exact Int.le_ediv_iff_mul_le hb

theorem jsbiDiv_nonneg_of (a b r : Int) (ha : 0 ≤ a) (hb : 0 < b)
    (h : jsbiDiv a b = .ok r) : 0 ≤ r := by
  rw [jsbiDiv_le_iff a b r ha hb h 0]
  simpa using ha

theorem jsbiDiv_lower (a b r : Int) (ha : 0 ≤ a) (hb : 0 < b)
    (h : jsbiDiv a b = .ok r) : r * b ≤ a :=
  (jsbiDiv_le_iff a b r ha hb h r).mp le_rfl

theorem mdru_le_iff (a b d r : Int) (hab : 0 ≤ a * b) (hd : 0 < d)
    (h : FullMath.mulDivRoundingUp a b d = .ok r) : ∀ z, r ≤ z ↔ a * b ≤ z * d := by
  intro z
  unfold FullMath.mulDivRoundingUp at h
  dsimp only [] at h
  rw [jsbiDiv_ok _ _ (by simpa using hd.ne')] at h
  simp only [exceptOkBind] at h
  unfold jsbiRem at h
  rw [if_neg (by simpa using hd.ne')] at h
  simp only [exceptOkBind] at h
  rw [Int.tdiv_eq_ediv hab hd.le] at h
  rw [Int.tmod_eq_emod hab hd.le] at h
  have hsum := Int.ediv_add_emod (a * b) d
  have hm0 : 0 ≤ (a * b) % d := Int.emod_nonneg _ hd.ne'
  have hmd : (a * b) % d < d := Int.emod_lt_of_pos _ hd
  have hcomm : z * d = d * z := mul_comm z d
  by_cases hm : (a * b) % d = 0
  · rw [if_neg (by simpa using hm)] at h
    injection h with h1
    subst h1
    constructor
    · intro hz
      have := mul_le_mul_of_nonneg_left hz hd.le
      omega
    · intro hz
      by_contra hcon
      push_neg at hcon
      have : z + 1 ≤ a * b / d := hcon
      have := mul_le_mul_of_nonneg_left this hd.le
      nlinarith [hsum]
  · rw [if_pos (by simpa using hm)] at h
    injection h with h1
    subst h1
    constructor
    · intro hz
      have hq : a * b / d + 1 ≤ z := hz
      have hmul := mul_le_mul_of_nonneg_left hq hd.le
      rw [mul_add, mul_one] at hmul
      omega
    · intro hz
      by_contra hcon
      push_neg at hcon
      have hq : z ≤ a * b / d := by omega
      have := mul_le_mul_of_nonneg_left hq hd.le
      omega

theorem mdru_nonneg (a b d r : Int) (hab : 0 ≤ a * b) (hd : 0 < d)
    (h : FullMath.mulDivRoundingUp a b d = .ok r) : 0 ≤ r := by
  by_contra hcon
  push_neg at hcon
  have := (mdru_le_iff a b d r hab hd h (-1)).mp (by omega)
  nlinarith

theorem mdru_lower (a b d r : Int) (hab : 0 ≤ a * b) (hd : 0 < d)
    (h : FullMath.mulDivRoundingUp a b d = .ok r) : a * b ≤ r * d :=
  (mdru_le_iff a b d r hab hd h r).mp le_rfl

theorem mdru_upper (a b d r : Int) (hab : 0 ≤ a * b) (hd : 0 < d)
    (h : FullMath.mulDivRoundingUp a b d = .ok r) : r * d ≤ a * b + d - 1 := by
  have := (mdru_le_iff a b d r hab hd h (r - 1))
  have h2 : ¬(a * b ≤ (r - 1) * d) := by
    intro hcon
    have := this.mpr hcon
    omega
  nlinarith

theorem getAmount0Delta_up_facts (A B L r : Int) (hA : 0 < A) (hAB : A ≤ B) (hL : 0 ≤ L)
    (h : SqrtPriceMath.getAmount0Delta A B L true = .ok r) :
    0 ≤ r ∧ ∀ z, r ≤ z ↔ L * 2 ^ 96 * (B - A) ≤ z * A * B := by
  have hB : 0 < B := lt_of_lt_of_le hA hAB
  have hnum : 0 ≤ L * 2 ^ 96 * (B - A) :=
    mul_nonneg (mul_nonneg hL (by positivity)) (by omega)
  unfold SqrtPriceMath.getAmount0Delta at h
  rw [if_neg (not_lt.mpr hAB)] at h
  dsimp only [] at h
  cases ht : FullMath.mulDivRoundingUp (L * 2 ^ 96) (B - A) B with
  | error e => rw [ht] at h; exact Except.noConfusion h
  | ok t =>
    rw [ht] at h
    simp only [exceptOkBind] at h
    have htn : 0 ≤ t := mdru_nonneg _ _ _ _ hnum hB ht
    have ht1 : 0 ≤ t * 1 := by omega
    constructor
    · exact mdru_nonneg _ _ _ _ ht1 hA h
    · intro z
      rw [mdru_le_iff _ _ _ _ ht1 hA h z]
      rw [show t * 1 = t from by ring]
      rw [← mdru_le_iff _ _ _ _ hnum hB ht (z * A)]

theorem getAmount1Delta_up_facts (A B L r : Int) (hAB : A ≤ B) (hL : 0 ≤ L)
    (h : SqrtPriceMath.getAmount1Delta A B L true = .ok r) :
    0 ≤ r ∧ ∀ z, r ≤ z ↔ L * (B - A) ≤ z * 2 ^ 96 := by
  have hnum : 0 ≤ L * (B - A) := mul_nonneg hL (by omega)
  unfold SqrtPriceMath.getAmount1Delta at h
  rw [if_neg (not_lt.mpr hAB)] at h
  dsimp only [] at h
  refine ⟨mdru_nonneg _ _ _ _ hnum (by positivity) h, fun z => ?_⟩
  exact mdru_le_iff _ _ _ _ hnum (by positivity) h z

theorem getAmount0Delta_down_nonneg (A B L r : Int) (hA : 0 < A) (hB : 0 < B) (hL : 0 ≤ L)
    (h : SqrtPriceMath.getAmount0Delta A B L false = .ok r) : 0 ≤ r := by
  unfold SqrtPriceMath.getAmount0Delta at h
  rcases lt_or_le B A with hBA | hAB
  · rw [if_pos hBA] at h
    dsimp only [] at h
    cases ht : jsbiDiv (L * 2 ^ 96 * (A - B)) A with
    | error e => rw [ht] at h; exact Except.noConfusion h
    | ok t =>
      rw [ht] at h
      simp only [exceptOkBind] at h
      have htn : 0 ≤ t :=
        jsbiDiv_nonneg_of _ _ _ (mul_nonneg (mul_nonneg hL (by positivity)) (by omega)) hA ht
      exact jsbiDiv_nonneg_of _ _ _ htn hB h
  · rw [if_neg (not_lt.mpr hAB)] at h
    dsimp only [] at h
    cases ht : jsbiDiv (L * 2 ^ 96 * (B - A)) B with
    | error e => rw [ht] at h; exact Except.noConfusion h
    | ok t =>
      rw [ht] at h
      simp only [exceptOkBind] at h
      have htn : 0 ≤ t :=
        jsbiDiv_nonneg_of _ _ _ (mul_nonneg (mul_nonneg hL (by positivity)) (by omega)) hB ht
      exact jsbiDiv_nonneg_of _ _ _ htn hA h

set_option maxRecDepth 4000 in
theorem getAmount1Delta_down_nonneg (A B L r : Int) (hL : 0 ≤ L)
    (h : SqrtPriceMath.getAmount1Delta A B L false = .ok r) : 0 ≤ r := by
  unfold SqrtPriceMath.getAmount1Delta at h
  rcases lt_or_le B A with hBA | hAB
  · rw [if_pos hBA] at h
    dsimp only [] at h
    rw [if_neg (by simp)] at h
    exact jsbiDiv_nonneg_of (L * (A - B)) (2 ^ 96) r
      (mul_nonneg hL (by omega)) (by positivity) h
  · rw [if_neg (not_lt.mpr hAB)] at h
    dsimp only [] at h
    rw [if_neg (by simp)] at h
    exact jsbiDiv_nonneg_of (L * (B - A)) (2 ^ 96) r
      (mul_nonneg hL (by omega)) (by positivity) h

set_option maxRecDepth 40000 in
theorem emod_probe_exact (e C : Int) (he : 0 < e) (hC : 0 < C)
    (h : ((e * C).emod (2 ^ 256)).tdiv e = C) : (e * C).emod (2 ^ 256) = e * C := by
  have hec : 0 ≤ e * C := by positivity
  have hp0 : 0 ≤ (e * C).emod (2 ^ 256) :=
    Int.emod_nonneg _ (show ((2:Int) ^ 256) ≠ 0 by positivity)
  rw [Int.tdiv_eq_ediv hp0 he.le] at h
  have hCe : C * e ≤ (e * C).emod (2 ^ 256) := by
    have h2 := Int.ediv_mul_le ((e * C).emod (2 ^ 256)) he.ne'
    rw [h] at h2
    exact h2
  have hcomm : e * C = C * e := mul_comm e C
  have hconv : ∀ a b : Int, a.emod b = a % b := fun _ _ => rfl
  rw [hconv] at hCe ⊢
  omega

set_option maxRecDepth 40000 in
theorem emod_add_guard_exact (x y : Int) (hx : 0 ≤ x) (hy : 0 ≤ y) (hyW : y < 2 ^ 256)
    (hguard : x ≤ (x + y).emod (2 ^ 256)) : (x + y).emod (2 ^ 256) = x + y := by
  have hconv : ∀ a b : Int, a.emod b = a % b := fun _ _ => rfl
  rw [hconv] at hguard ⊢
  omega

theorem nextFallback_facts (C L e r : Int) (hC : 0 < C) (hL : 0 < L) (he : 0 < e)
    (h : (do
        let d ← jsbiDiv (L * 2 ^ 96) C
        FullMath.mulDivRoundingUp (L * 2 ^ 96) 1 (d + e)) = .ok r) :
    0 < r ∧ r ≤ C ∧ L * 2 ^ 96 * (C - r) ≤ e * r * C := by
  have hn1 : (0 : Int) < L * 2 ^ 96 := by positivity
  cases hd : jsbiDiv (L * 2 ^ 96) C with
  | error err => rw [hd] at h; exact Except.noConfusion h
  | ok d =>
    rw [hd] at h
    simp only [exceptOkBind] at h
    have hd0 : 0 ≤ d := jsbiDiv_nonneg_of _ _ _ hn1.le hC hd
    have hdC : d * C ≤ L * 2 ^ 96 := jsbiDiv_lower _ _ _ hn1.le hC hd
    have hup : L * 2 ^ 96 < (d + 1) * C := by
      by_contra hcon
      push_neg at hcon
      have := (jsbiDiv_le_iff _ _ _ hn1.le hC hd (d + 1)).mpr hcon
      omega
    have hden : 0 < d + e := by omega
    have hone : 0 ≤ L * 2 ^ 96 * 1 := by positivity
    have hr0 : 0 < r := by
      by_contra hcon
      push_neg at hcon
      have := (mdru_le_iff _ _ _ _ hone hden h 0).mp hcon
      nlinarith
    have hlow := mdru_lower _ _ _ _ hone hden h
    refine ⟨hr0, ?_, ?_⟩
    · rw [mdru_le_iff _ _ _ _ hone hden h C]
      nlinarith
    · nlinarith [mul_le_mul_of_nonneg_left hdC hr0.le]

theorem nextFromAmount0Add_facts (C L e r : Int) (hC : 0 < C) (hL : 0 < L) (he : 0 ≤ e)
    (h : SqrtPriceMath.getNextSqrtPriceFromAmount0RoundingUp C L e true = .ok r) :
    0 < r ∧ r ≤ C ∧ L * 2 ^ 96 * (C - r) ≤ e * r * C := by
  unfold SqrtPriceMath.getNextSqrtPriceFromAmount0RoundingUp at h
  by_cases he0 : e = 0
  · subst he0
    rw [if_pos (by simp)] at h
    simp only [exceptPureEq] at h
    injection h with h1
    subst h1
    refine ⟨hC, le_rfl, by nlinarith⟩
  · have he' : 0 < e := by omega
    rw [if_neg (by simp [he0])] at h
    dsimp only [SqrtPriceMath.multiplyIn256, SqrtPriceMath.addIn256] at h
    rw [if_pos (show (true = true) from rfl)] at h
    rw [jsbiDiv_ok _ _ he0] at h
    simp only [exceptOkBind] at h
    simp only [beq_iff_eq] at h
    by_cases hpr : ((e * C).emod (2 ^ 256)).tdiv e = C
    · rw [if_pos hpr] at h
      have hexact := emod_probe_exact e C he' hC hpr
      rw [hexact] at h
      have hecW : e * C < 2 ^ 256 := by
        rw [← hexact]
        exact Int.emod_lt_of_pos _ (by positivity)
      have hn1 : (0 : Int) < L * 2 ^ 96 := by positivity
      by_cases hguard : L * 2 ^ 96 ≤ (L * 2 ^ 96 + e * C).emod (2 ^ 256)
      · rw [if_pos hguard] at h
        have hden := emod_add_guard_exact (L * 2 ^ 96) (e * C) hn1.le (by positivity)
          hecW hguard
        rw [hden] at h
        have hd0 : (0 : Int) < L * 2 ^ 96 + e * C := by positivity
        have hnum : (0 : Int) ≤ L * 2 ^ 96 * C := by positivity
        have hr0 : 0 < r := by
          by_contra hcon
          push_neg at hcon
          have := (mdru_le_iff _ _ _ _ hnum hd0 h 0).mp hcon
          nlinarith
        have hlow := mdru_lower _ _ _ _ hnum hd0 h
        refine ⟨hr0, ?_, ?_⟩
        · rw [mdru_le_iff _ _ _ _ hnum hd0 h C]
          nlinarith
        · nlinarith
      · rw [if_neg hguard] at h
        exact nextFallback_facts C L e r hC hL he' h
    · rw [if_neg hpr] at h
      exact nextFallback_facts C L e r hC hL he' h

theorem nextFromAmount1Add_facts (C L e r : Int) (hL : 0 < L) (he : 0 ≤ e)
    (h : SqrtPriceMath.getNextSqrtPriceFromAmount1RoundingDown C L e true = .ok r) :
    C ≤ r ∧ L * (r - C) ≤ e * 2 ^ 96 := by
  unfold SqrtPriceMath.getNextSqrtPriceFromAmount1RoundingDown at h
  rw [if_pos rfl] at h
  rw [ite_self] at h
  cases hq : jsbiDiv (e * 2 ^ 96) L with
  | error err => rw [hq] at h; exact Except.noConfusion h
  | ok q =>
    rw [hq] at h
    simp only [exceptOkBind, exceptPureEq] at h
    have he96 : (0 : Int) ≤ e * 2 ^ 96 := by positivity
    have hq0 : 0 ≤ q := jsbiDiv_nonneg_of _ _ _ he96 hL hq
    have hql : q * L ≤ e * 2 ^ 96 := jsbiDiv_lower _ _ _ he96 hL hq
    injection h with h1
    subst h1
    constructor
    · omega
    · nlinarith

theorem nextFromAmount1Remove_facts (C L a r : Int) (hC : 0 < C) (hL : 0 < L) (ha : 0 ≤ a)
    (h : SqrtPriceMath.getNextSqrtPriceFromAmount1RoundingDown C L a false = .ok r) :
    0 < r ∧ r ≤ C := by
  unfold SqrtPriceMath.getNextSqrtPriceFromAmount1RoundingDown at h
  rw [if_neg (by simp)] at h
  cases hq : FullMath.mulDivRoundingUp a (2 ^ 96) L with
  | error err => rw [hq] at h; exact Except.noConfusion h
  | ok q =>
    rw [hq] at h
    simp only [exceptOkBind] at h
    have hq0 : 0 ≤ q := mdru_nonneg _ _ _ _ (by positivity) hL hq
    split at h
    · rename_i hqC
      simp only [exceptPureEq] at h
      injection h with h1
      subst h1
      omega
    · exact Except.noConfusion h

theorem nextFromAmount0Remove_facts (C L a r : Int) (hC : 0 < C) (hL : 0 < L) (ha : 0 ≤ a)
    (h : SqrtPriceMath.getNextSqrtPriceFromAmount0RoundingUp C L a false = .ok r) :
    C ≤ r := by
  unfold SqrtPriceMath.getNextSqrtPriceFromAmount0RoundingUp at h
  by_cases ha0 : a = 0
  · subst ha0
    rw [if_pos (by simp)] at h
    simp only [exceptPureEq] at h
    injection h with h1
    omega
  · rw [if_neg (by simp [ha0])] at h
    dsimp only [SqrtPriceMath.multiplyIn256] at h
    rw [if_neg (show ¬(false = true) from by simp)] at h
    rw [jsbiDiv_ok _ _ ha0] at h
    simp only [exceptOkBind] at h
    split at h
    · exact Except.noConfusion h
    · rename_i hprobe
      split at h
      · exact Except.noConfusion h
      · rename_i hund
        push_neg at hund
        have hp0 : 0 ≤ (a * C).emod (2 ^ 256) :=
          Int.emod_nonneg _ (show ((2:Int) ^ 256) ≠ 0 by positivity)
        have hden : 0 < L * 2 ^ 96 - (a * C).emod (2 ^ 256) := by omega
        have hnum : (0 : Int) ≤ L * 2 ^ 96 * C := by positivity
        by_contra hcon
        push_neg at hcon
        have := (mdru_le_iff _ _ _ _ hnum hden h (C - 1)).mp (by omega)
        nlinarith

theorem nextFromInput_true_facts (C L e r : Int) (hC : 0 < C) (he : 0 ≤ e)
    (h : SqrtPriceMath.getNextSqrtPriceFromInput C L e true = .ok r) :
    0 < L ∧ 0 < r ∧ r ≤ C ∧ L * 2 ^ 96 * (C - r) ≤ e * r * C := by
  unfold SqrtPriceMath.getNextSqrtPriceFromInput at h
  rw [if_neg (not_le.mpr hC)] at h
  by_cases hL : L ≤ 0
  · rw [if_pos hL] at h; exact Except.noConfusion h
  · rw [if_neg hL] at h
    push_neg at hL
    rw [if_pos (show (true = true) from rfl)] at h
    exact ⟨hL, nextFromAmount0Add_facts C L e r hC hL he h⟩

theorem nextFromInput_false_facts (C L e r : Int) (hC : 0 < C) (he : 0 ≤ e)
    (h : SqrtPriceMath.getNextSqrtPriceFromInput C L e false = .ok r) :
    0 < L ∧ C ≤ r ∧ L * (r - C) ≤ e * 2 ^ 96 := by
  unfold SqrtPriceMath.getNextSqrtPriceFromInput at h
  rw [if_neg (not_le.mpr hC)] at h
  by_cases hL : L ≤ 0
  · rw [if_pos hL] at h; exact Except.noConfusion h
  · rw [if_neg hL] at h
    push_neg at hL
    rw [if_neg (show ¬(false = true) from by simp)] at h
    exact ⟨hL, nextFromAmount1Add_facts C L e r hL he h⟩

theorem nextFromOutput_true_facts (C L a r : Int) (hC : 0 < C) (ha : 0 ≤ a)
    (h : SqrtPriceMath.getNextSqrtPriceFromOutput C L a true = .ok r) :
    0 < L ∧ 0 < r ∧ r ≤ C := by
  unfold SqrtPriceMath.getNextSqrtPriceFromOutput at h
  rw [if_neg (not_le.mpr hC)] at h
  by_cases hL : L ≤ 0
  · rw [if_pos hL] at h; exact Except.noConfusion h
  · rw [if_neg hL] at h
    push_neg at hL
    rw [if_pos (show (true = true) from rfl)] at h
    exact ⟨hL, nextFromAmount1Remove_facts C L a r hC hL ha h⟩

theorem nextFromOutput_false_facts (C L a r : Int) (hC : 0 < C) (ha : 0 ≤ a)
    (h : SqrtPriceMath.getNextSqrtPriceFromOutput C L a false = .ok r) :
    0 < L ∧ C ≤ r := by
  unfold SqrtPriceMath.getNextSqrtPriceFromOutput at h
  rw [if_neg (not_le.mpr hC)] at h
  by_cases hL : L ≤ 0
  · rw [if_pos hL] at h; exact Except.noConfusion h
  · rw [if_neg hL] at h
    push_neg at hL
    rw [if_neg (show ¬(false = true) from by simp)] at h
    exact ⟨hL, nextFromAmount0Remove_facts C L a r hC hL ha h⟩

theorem feeTotal_le (a f e ain fee : Int) (hf1 : 0 ≤ f) (hf2 : f < 10 ^ 6)
    (he : e * 10 ^ 6 ≤ a * (10 ^ 6 - f)) (hain : ain ≤ e)
    (hfee : fee * (10 ^ 6 - f) ≤ ain * f + (10 ^ 6 - f) - 1) : ain + fee ≤ a := by
  have hk : (0 : Int) < 10 ^ 6 - f := by omega
  have h1 : ain * 10 ^ 6 ≤ e * 10 ^ 6 :=
    mul_le_mul_of_nonneg_right hain (by norm_num)
  have h4 : (ain + fee) * (10 ^ 6 - f) < (a + 1) * (10 ^ 6 - f) := by nlinarith
  have := lt_of_mul_lt_mul_right h4 hk.le
  omega

theorem lessFee_le_self (a f e : Int) (ha : 0 ≤ a) (hf1 : 0 ≤ f) (hf2 : f < 10 ^ 6)
    (he : e * 10 ^ 6 ≤ a * (10 ^ 6 - f)) : e ≤ a := by
  have h1 : a * (10 ^ 6 - f) ≤ a * 10 ^ 6 :=
    mul_le_mul_of_nonneg_left (by omega) ha
  have h2 : e * 10 ^ 6 ≤ a * 10 ^ 6 := le_trans he h1
  have := le_of_mul_le_mul_right h2 (show (0:Int) < 10 ^ 6 by norm_num)
  exact this

set_option maxHeartbeats 1000000 in
/-! ## Claim C3 — fee conservation in computeSwapStep -/

set_option maxHeartbeats 1000000 in
set_option maxRecDepth 8000 in
/-- C3: for every successful `computeSwapStep` call with both sqrt prices
in the valid range, nonnegative liquidity and a fee below 100%: on exact
input (`amountRemaining >= 0`) the returned `amountIn + feeAmount` never
exceeds `amountRemaining`, and the returned `feeAmount` is nonnegative in
all cases. -/
theorem C3_fee_conservation (sqrtCurrent sqrtTarget liquidity amountRemaining feePips : Int)
    (res : SwapMath.SwapStepResult)
    (hc1 : TickMath.minSqrtPriceX96 ≤ sqrtCurrent)
    (hc2 : sqrtCurrent ≤ TickMath.maxSqrtPriceX96)
    (ht1 : TickMath.minSqrtPriceX96 ≤ sqrtTarget)
    (ht2 : sqrtTarget ≤ TickMath.maxSqrtPriceX96)
    (hL : 0 ≤ liquidity) (hf1 : 0 ≤ feePips) (hf2 : feePips < 1000000)
    (h : SwapMath.computeSwapStep sqrtCurrent sqrtTarget liquidity amountRemaining feePips =
      .ok res) :
    (0 ≤ amountRemaining → res.amountIn + res.feeAmount ≤ amountRemaining) ∧
      0 ≤ res.feeAmount := by
  have hC : (0 : Int) < sqrtCurrent := lt_of_lt_of_le (by decide) hc1
  have hT : (0 : Int) < sqrtTarget := lt_of_lt_of_le (by decide) ht1
  have hkpos : (0 : Int) < MAX_FEE - feePips := by unfold MAX_FEE; omega
  have hM0 : (MAX_FEE : Int) ≠ 0 := by unfold MAX_FEE; norm_num
  unfold SwapMath.computeSwapStep at h
  try dsimp only [] at h
  by_cases hex : 0 ≤ amountRemaining
  · have hdec : decide (0 ≤ amountRemaining) = true := decide_eq_true hex
    rw [hdec] at h
    rw [if_pos (show (true = true) from rfl)] at h
    rw [jsbiDiv_ok _ _ hM0] at h
    try dsimp only [] at h
    have hprod : 0 ≤ amountRemaining * (MAX_FEE - feePips) := mul_nonneg hex hkpos.le
    have he0 : 0 ≤ (amountRemaining * (MAX_FEE - feePips)).tdiv MAX_FEE :=
      Int.tdiv_nonneg hprod (by unfold MAX_FEE; norm_num)
    have heM : (amountRemaining * (MAX_FEE - feePips)).tdiv MAX_FEE * MAX_FEE ≤
        amountRemaining * (MAX_FEE - feePips) := by
      rw [Int.tdiv_eq_ediv hprod (by unfold MAX_FEE; norm_num)]
      exact Int.ediv_mul_le _ hM0
    have heA : (amountRemaining * (MAX_FEE - feePips)).tdiv MAX_FEE ≤ amountRemaining :=
      lessFee_le_self amountRemaining feePips _ hex hf1 (by omega) heM
    by_cases hzfo : sqrtTarget ≤ sqrtCurrent
    · have hbz : decide (sqrtTarget ≤ sqrtCurrent) = true := decide_eq_true hzfo
      rw [hbz] at h
      try simp only [beq_self_eq_true, Bool.and_self, Bool.and_true, Bool.true_and,
          Bool.and_false, Bool.false_and, Bool.not_true, Bool.not_false, Bool.false_eq_true,
          eq_self_iff_true, if_true, ne_eq, not_true, true_and, false_and, if_false] at h
      try dsimp only [] at h
      cases hAin : SqrtPriceMath.getAmount0Delta sqrtTarget sqrtCurrent liquidity true with
      | error err =>
        rw [hAin] at h
        try dsimp only [] at h
        exact Except.noConfusion h
      | ok ain =>
        rw [hAin] at h
        try dsimp only [] at h
        obtain ⟨hain0, hainiff⟩ :=
          getAmount0Delta_up_facts sqrtTarget sqrtCurrent liquidity ain hT hzfo hL hAin
        by_cases hfull : ain ≤ (amountRemaining * (MAX_FEE - feePips)).tdiv MAX_FEE
        · rw [if_pos hfull] at h
          try simp only [beq_self_eq_true, Bool.and_self, Bool.and_true, Bool.true_and,
              Bool.and_false, Bool.false_and, Bool.not_true, Bool.not_false, Bool.false_eq_true,
              eq_self_iff_true, if_true, ne_eq, not_true, true_and, false_and, if_false] at h
          try dsimp only [] at h
          cases hAout : SqrtPriceMath.getAmount1Delta sqrtTarget sqrtCurrent liquidity false with
          | error err =>
            rw [hAout] at h
            try simp only [beq_self_eq_true, Bool.and_self, Bool.and_true, Bool.true_and,
                Bool.and_false, Bool.false_and, Bool.not_true, Bool.not_false, Bool.false_eq_true,
                eq_self_iff_true, if_true, ne_eq, not_true, true_and, false_and, if_false] at h
            try dsimp only [] at h
            exact Except.noConfusion h
          | ok aout =>
            rw [hAout] at h
            try simp only [beq_self_eq_true, Bool.and_self, Bool.and_true, Bool.true_and,
                Bool.and_false, Bool.false_and, Bool.not_true, Bool.not_false, Bool.false_eq_true,
                eq_self_iff_true, if_true, ne_eq, not_true, true_and, false_and, if_false] at h
            try dsimp only [] at h
            cases hfee : FullMath.mulDivRoundingUp ain feePips (MAX_FEE - feePips) with
            | error err =>
              rw [hfee] at h
              try dsimp only [] at h
              exact Except.noConfusion h
            | ok fee =>
              rw [hfee] at h
              try dsimp only [] at h
              injection h with h1
              subst h1
              dsimp only []
              have hainle := hfull
              have hfee0 : 0 ≤ fee := mdru_nonneg _ _ _ _ (mul_nonneg hain0 hf1) hkpos hfee
              have hfeeUp := mdru_upper _ _ _ _ (mul_nonneg hain0 hf1) hkpos hfee
              exact ⟨fun _ => feeTotal_le amountRemaining feePips _ ain fee hf1 (by omega)
                heM hainle hfeeUp, hfee0⟩
        · rw [if_neg hfull] at h
          try dsimp only [] at h
          cases hnext : SqrtPriceMath.getNextSqrtPriceFromInput sqrtCurrent liquidity
              ((amountRemaining * (MAX_FEE - feePips)).tdiv MAX_FEE) true with
          | error err =>
            rw [hnext] at h
            try dsimp only [] at h
            exact Except.noConfusion h
          | ok next =>
            rw [hnext] at h
            try dsimp only [] at h
            obtain ⟨hL0, hnext0, hnextC, hkey⟩ :=
              nextFromInput_true_facts sqrtCurrent liquidity _ next hC he0 hnext
            by_cases hland : sqrtTarget = next
            · subst hland
              try simp only [beq_self_eq_true, Bool.and_self, Bool.and_true, Bool.true_and,
                  Bool.and_false, Bool.false_and, Bool.not_true, Bool.not_false, Bool.false_eq_true,
                  eq_self_iff_true, if_true, ne_eq, not_true, true_and, false_and, if_false] at h
              try dsimp only [] at h
              cases hAout : SqrtPriceMath.getAmount1Delta sqrtTarget sqrtCurrent liquidity false with
              | error err =>
                rw [hAout] at h
                try simp only [beq_self_eq_true, Bool.and_self, Bool.and_true, Bool.true_and,
                    Bool.and_false, Bool.false_and, Bool.not_true, Bool.not_false, Bool.false_eq_true,
                    eq_self_iff_true, if_true, ne_eq, not_true, true_and, false_and, if_false] at h
                try dsimp only [] at h
                exact Except.noConfusion h
              | ok aout =>
                rw [hAout] at h
                try simp only [beq_self_eq_true, Bool.and_self, Bool.and_true, Bool.true_and,
                    Bool.and_false, Bool.false_and, Bool.not_true, Bool.not_false, Bool.false_eq_true,
                    eq_self_iff_true, if_true, ne_eq, not_true, true_and, false_and, if_false] at h
                try dsimp only [] at h
                cases hfee : FullMath.mulDivRoundingUp ain feePips (MAX_FEE - feePips) with
                | error err =>
                  rw [hfee] at h
                  try dsimp only [] at h
                  exact Except.noConfusion h
                | ok fee =>
                  rw [hfee] at h
                  try dsimp only [] at h
                  injection h with h1
                  subst h1
                  dsimp only []
                  have hainle : ain ≤ (amountRemaining * (MAX_FEE - feePips)).tdiv MAX_FEE := by
                    rw [hainiff]
                    exact hkey
                  have hfee0 : 0 ≤ fee := mdru_nonneg _ _ _ _ (mul_nonneg hain0 hf1) hkpos hfee
                  have hfeeUp := mdru_upper _ _ _ _ (mul_nonneg hain0 hf1) hkpos hfee
                  exact ⟨fun _ => feeTotal_le amountRemaining feePips _ ain fee hf1 (by omega)
                    heM hainle hfeeUp, hfee0⟩
            · rw [show (sqrtTarget == next) = false from beq_eq_false_iff_ne.mpr hland] at h
              try simp only [beq_self_eq_true, Bool.and_self, Bool.and_true, Bool.true_and,
                  Bool.and_false, Bool.false_and, Bool.not_true, Bool.not_false, Bool.false_eq_true,
                  eq_self_iff_true, if_true, ne_eq, not_true, true_and, false_and, if_false] at h
              try dsimp only [] at h
              cases hAin2 : SqrtPriceMath.getAmount0Delta next sqrtCurrent liquidity true with
              | error err =>
                rw [hAin2] at h
                try dsimp only [] at h
                exact Except.noConfusion h
              | ok ain2 =>
                rw [hAin2] at h
                try dsimp only [] at h
                obtain ⟨hain20, hain2iff⟩ := getAmount0Delta_up_facts next sqrtCurrent liquidity ain2 hnext0 hnextC hL hAin2
                have hain2le : ain2 ≤ (amountRemaining * (MAX_FEE - feePips)).tdiv MAX_FEE := by
                  rw [hain2iff]
                  exact hkey
                cases hAout : SqrtPriceMath.getAmount1Delta next sqrtCurrent liquidity false with
                | error err =>
                  rw [hAout] at h
                  try dsimp only [] at h
                  exact Except.noConfusion h
                | ok aout =>
                  rw [hAout] at h
                  try simp only [beq_self_eq_true, Bool.and_self, Bool.and_true, Bool.true_and,
                      Bool.and_false, Bool.false_and, Bool.not_true, Bool.not_false, Bool.false_eq_true,
                      eq_self_iff_true, if_true, ne_eq, not_true, true_and, false_and, if_false] at h
                  try dsimp only [] at h
                  rw [if_pos (show ¬next = sqrtTarget from fun hh => hland hh.symm)] at h
                  try dsimp only [] at h
                  injection h with h1
                  subst h1
                  dsimp only []
                  constructor
                  · intro
                    omega
                  · omega
    · have hbz : decide (sqrtTarget ≤ sqrtCurrent) = false := decide_eq_false hzfo
      have hCT : sqrtCurrent ≤ sqrtTarget := le_of_lt (not_le.mp hzfo)
      rw [hbz] at h
      try simp only [beq_self_eq_true, Bool.and_self, Bool.and_true, Bool.true_and,
          Bool.and_false, Bool.false_and, Bool.not_true, Bool.not_false, Bool.false_eq_true,
          eq_self_iff_true, if_true, ne_eq, not_true, true_and, false_and, if_false] at h
      try dsimp only [] at h
      cases hAin : SqrtPriceMath.getAmount1Delta sqrtCurrent sqrtTarget liquidity true with
      | error err =>
        rw [hAin] at h
        try dsimp only [] at h
        exact Except.noConfusion h
      | ok ain =>
        rw [hAin] at h
        try dsimp only [] at h
        obtain ⟨hain0, hainiff⟩ :=
          getAmount1Delta_up_facts sqrtCurrent sqrtTarget liquidity ain hCT hL hAin
        by_cases hfull : ain ≤ (amountRemaining * (MAX_FEE - feePips)).tdiv MAX_FEE
        · rw [if_pos hfull] at h
          try simp only [beq_self_eq_true, Bool.and_self, Bool.and_true, Bool.true_and,
              Bool.and_false, Bool.false_and, Bool.not_true, Bool.not_false, Bool.false_eq_true,
              eq_self_iff_true, if_true, ne_eq, not_true, true_and, false_and, if_false] at h
          try dsimp only [] at h
          cases hAout : SqrtPriceMath.getAmount0Delta sqrtCurrent sqrtTarget liquidity false with
          | error err =>
            rw [hAout] at h
            try simp only [beq_self_eq_true, Bool.and_self, Bool.and_true, Bool.true_and,
                Bool.and_false, Bool.false_and, Bool.not_true, Bool.not_false, Bool.false_eq_true,
                eq_self_iff_true, if_true, ne_eq, not_true, true_and, false_and, if_false] at h
            try dsimp only [] at h
            exact Except.noConfusion h
          | ok aout =>
            rw [hAout] at h
            try simp only [beq_self_eq_true, Bool.and_self, Bool.and_true, Bool.true_and,
                Bool.and_false, Bool.false_and, Bool.not_true, Bool.not_false, Bool.false_eq_true,
                eq_self_iff_true, if_true, ne_eq, not_true, true_and, false_and, if_false] at h
            try dsimp only [] at h
            cases hfee : FullMath.mulDivRoundingUp ain feePips (MAX_FEE - feePips) with
            | error err =>
              rw [hfee] at h
              try dsimp only [] at h
              exact Except.noConfusion h
            | ok fee =>
              rw [hfee] at h
              try dsimp only [] at h
              injection h with h1
              subst h1
              dsimp only []
              have hainle := hfull
              have hfee0 : 0 ≤ fee := mdru_nonneg _ _ _ _ (mul_nonneg hain0 hf1) hkpos hfee
              have hfeeUp := mdru_upper _ _ _ _ (mul_nonneg hain0 hf1) hkpos hfee
              exact ⟨fun _ => feeTotal_le amountRemaining feePips _ ain fee hf1 (by omega)
                heM hainle hfeeUp, hfee0⟩
        · rw [if_neg hfull] at h
          try dsimp only [] at h
          cases hnext : SqrtPriceMath.getNextSqrtPriceFromInput sqrtCurrent liquidity
              ((amountRemaining * (MAX_FEE - feePips)).tdiv MAX_FEE) false with
          | error err =>
            rw [hnext] at h
            try dsimp only [] at h
            exact Except.noConfusion h
          | ok next =>
            rw [hnext] at h
            try dsimp only [] at h
            obtain ⟨hL0, hCnext, hkey⟩ :=
              nextFromInput_false_facts sqrtCurrent liquidity _ next hC he0 hnext
            by_cases hland : sqrtTarget = next
            · subst hland
              try simp only [beq_self_eq_true, Bool.and_self, Bool.and_true, Bool.true_and,
                  Bool.and_false, Bool.false_and, Bool.not_true, Bool.not_false, Bool.false_eq_true,
                  eq_self_iff_true, if_true, ne_eq, not_true, true_and, false_and, if_false] at h
              try dsimp only [] at h
              cases hAout : SqrtPriceMath.getAmount0Delta sqrtCurrent sqrtTarget liquidity false with
              | error err =>
                rw [hAout] at h
                try simp only [beq_self_eq_true, Bool.and_self, Bool.and_true, Bool.true_and,
                    Bool.and_false, Bool.false_and, Bool.not_true, Bool.not_false, Bool.false_eq_true,
                    eq_self_iff_true, if_true, ne_eq, not_true, true_and, false_and, if_false] at h
                try dsimp only [] at h
                exact Except.noConfusion h
              | ok aout =>
                rw [hAout] at h
                try simp only [beq_self_eq_true, Bool.and_self, Bool.and_true, Bool.true_and,
                    Bool.and_false, Bool.false_and, Bool.not_true, Bool.not_false, Bool.false_eq_true,
                    eq_self_iff_true, if_true, ne_eq, not_true, true_and, false_and, if_false] at h
                try dsimp only [] at h
                cases hfee : FullMath.mulDivRoundingUp ain feePips (MAX_FEE - feePips) with
                | error err =>
                  rw [hfee] at h
                  try dsimp only [] at h
                  exact Except.noConfusion h
                | ok fee =>
                  rw [hfee] at h
                  try dsimp only [] at h
                  injection h with h1
                  subst h1
                  dsimp only []
                  have hainle : ain ≤ (amountRemaining * (MAX_FEE - feePips)).tdiv MAX_FEE := by
                    rw [hainiff]
                    exact hkey
                  have hfee0 : 0 ≤ fee := mdru_nonneg _ _ _ _ (mul_nonneg hain0 hf1) hkpos hfee
                  have hfeeUp := mdru_upper _ _ _ _ (mul_nonneg hain0 hf1) hkpos hfee
                  exact ⟨fun _ => feeTotal_le amountRemaining feePips _ ain fee hf1 (by omega)
                    heM hainle hfeeUp, hfee0⟩
            · rw [show (sqrtTarget == next) = false from beq_eq_false_iff_ne.mpr hland] at h
              try simp only [beq_self_eq_true, Bool.and_self, Bool.and_true, Bool.true_and,
                  Bool.and_false, Bool.false_and, Bool.not_true, Bool.not_false, Bool.false_eq_true,
                  eq_self_iff_true, if_true, ne_eq, not_true, true_and, false_and, if_false] at h
              try dsimp only [] at h
              cases hAin2 : SqrtPriceMath.getAmount1Delta sqrtCurrent next liquidity true with
              | error err =>
                rw [hAin2] at h
                try dsimp only [] at h
                exact Except.noConfusion h
              | ok ain2 =>
                rw [hAin2] at h
                try dsimp only [] at h
                obtain ⟨hain20, hain2iff⟩ := getAmount1Delta_up_facts sqrtCurrent next liquidity ain2 hCnext hL hAin2
                have hain2le : ain2 ≤ (amountRemaining * (MAX_FEE - feePips)).tdiv MAX_FEE := by
                  rw [hain2iff]
                  exact hkey
                cases hAout : SqrtPriceMath.getAmount0Delta sqrtCurrent next liquidity false with
                | error err =>
                  rw [hAout] at h
                  try dsimp only [] at h
                  exact Except.noConfusion h
                | ok aout =>
                  rw [hAout] at h
                  try simp only [beq_self_eq_true, Bool.and_self, Bool.and_true, Bool.true_and,
                      Bool.and_false, Bool.false_and, Bool.not_true, Bool.not_false, Bool.false_eq_true,
                      eq_self_iff_true, if_true, ne_eq, not_true, true_and, false_and, if_false] at h
                  try dsimp only [] at h
                  rw [if_pos (show ¬next = sqrtTarget from fun hh => hland hh.symm)] at h
                  try dsimp only [] at h
                  injection h with h1
                  subst h1
                  dsimp only []
                  constructor
                  · intro
                    omega
                  · omega
  · have hdec : decide (0 ≤ amountRemaining) = false := decide_eq_false hex
    rw [hdec] at h
    rw [if_neg (by simp)] at h
    try dsimp only [] at h
    have hnegA : 0 ≤ amountRemaining * (-1) := by omega
    by_cases hzfo : sqrtTarget ≤ sqrtCurrent
    · have hbz : decide (sqrtTarget ≤ sqrtCurrent) = true := decide_eq_true hzfo
      rw [hbz] at h
      try simp only [beq_self_eq_true, Bool.and_self, Bool.and_true, Bool.true_and,
          Bool.and_false, Bool.false_and, Bool.not_true, Bool.not_false, Bool.false_eq_true,
          eq_self_iff_true, if_true, ne_eq, not_true, true_and, false_and, if_false] at h
      try dsimp only [] at h
      cases hAoutE : SqrtPriceMath.getAmount1Delta sqrtTarget sqrtCurrent liquidity false with
      | error err =>
        rw [hAoutE] at h
        try dsimp only [] at h
        exact Except.noConfusion h
      | ok aout0 =>
        rw [hAoutE] at h
        try dsimp only [] at h
        by_cases hfullo : aout0 ≤ amountRemaining * (-1)
        · rw [if_pos hfullo] at h
          try simp only [beq_self_eq_true, Bool.and_self, Bool.and_true, Bool.true_and,
              Bool.and_false, Bool.false_and, Bool.not_true, Bool.not_false, Bool.false_eq_true,
              eq_self_iff_true, if_true, ne_eq, not_true, true_and, false_and, if_false] at h
          try dsimp only [] at h
          cases hain : SqrtPriceMath.getAmount0Delta sqrtTarget sqrtCurrent liquidity true with
          | error err =>
            rw [hain] at h
            try dsimp only [] at h
            exact Except.noConfusion h
          | ok ain =>
            rw [hain] at h
            try simp only [beq_self_eq_true, Bool.and_self, Bool.and_true, Bool.true_and,
                Bool.and_false, Bool.false_and, Bool.not_true, Bool.not_false, Bool.false_eq_true,
                eq_self_iff_true, if_true, ne_eq, not_true, true_and, false_and, if_false] at h
            try dsimp only [] at h
            cases hfee : FullMath.mulDivRoundingUp ain feePips (MAX_FEE - feePips) with
            | error err =>
              rw [hfee] at h
              try dsimp only [] at h
              exact Except.noConfusion h
            | ok fee =>
              rw [hfee] at h
              try dsimp only [] at h
              injection h with h1
              subst h1
              dsimp only []
              have hain0 : 0 ≤ ain := (getAmount0Delta_up_facts sqrtTarget sqrtCurrent liquidity ain hT hzfo hL hain).1
              have hfee0 : 0 ≤ fee := mdru_nonneg _ _ _ _ (mul_nonneg hain0 hf1) hkpos hfee
              exact ⟨fun ha => absurd ha hex, hfee0⟩
        · rw [if_neg hfullo] at h
          try dsimp only [] at h
          cases hnext : SqrtPriceMath.getNextSqrtPriceFromOutput sqrtCurrent liquidity
              (amountRemaining * (-1)) true with
          | error err =>
            rw [hnext] at h
            try dsimp only [] at h
            exact Except.noConfusion h
          | ok next =>
            rw [hnext] at h
            try dsimp only [] at h
            obtain ⟨hL0, hnext0, hnextC⟩ :=
              nextFromOutput_true_facts sqrtCurrent liquidity _ next hC hnegA hnext
            by_cases hland : sqrtTarget = next
            · subst hland
              try simp only [beq_self_eq_true, Bool.and_self, Bool.and_true, Bool.true_and,
                  Bool.and_false, Bool.false_and, Bool.not_true, Bool.not_false, Bool.false_eq_true,
                  eq_self_iff_true, if_true, ne_eq, not_true, true_and, false_and, if_false] at h
              try dsimp only [] at h
              cases hain : SqrtPriceMath.getAmount0Delta sqrtTarget sqrtCurrent liquidity true with
              | error err =>
                rw [hain] at h
                try dsimp only [] at h
                exact Except.noConfusion h
              | ok ain =>
                rw [hain] at h
                try simp only [beq_self_eq_true, Bool.and_self, Bool.and_true, Bool.true_and,
                    Bool.and_false, Bool.false_and, Bool.not_true, Bool.not_false, Bool.false_eq_true,
                    eq_self_iff_true, if_true, ne_eq, not_true, true_and, false_and, if_false] at h
                try dsimp only [] at h
                cases hfee : FullMath.mulDivRoundingUp ain feePips (MAX_FEE - feePips) with
                | error err =>
                  rw [hfee] at h
                  try dsimp only [] at h
                  exact Except.noConfusion h
                | ok fee =>
                  rw [hfee] at h
                  try dsimp only [] at h
                  injection h with h1
                  subst h1
                  dsimp only []
                  have hain0 : 0 ≤ ain := (getAmount0Delta_up_facts sqrtTarget sqrtCurrent liquidity ain hT hzfo hL hain).1
                  have hfee0 : 0 ≤ fee := mdru_nonneg _ _ _ _ (mul_nonneg hain0 hf1) hkpos hfee
                  exact ⟨fun ha => absurd ha hex, hfee0⟩
            · rw [show (sqrtTarget == next) = false from beq_eq_false_iff_ne.mpr hland] at h
              try simp only [beq_self_eq_true, Bool.and_self, Bool.and_true, Bool.true_and,
                  Bool.and_false, Bool.false_and, Bool.not_true, Bool.not_false, Bool.false_eq_true,
                  eq_self_iff_true, if_true, ne_eq, not_true, true_and, false_and, if_false] at h
              try dsimp only [] at h
              cases hain : SqrtPriceMath.getAmount0Delta next sqrtCurrent liquidity true with
              | error err =>
                rw [hain] at h
                try dsimp only [] at h
                exact Except.noConfusion h
              | ok ain =>
                rw [hain] at h
                try simp only [beq_self_eq_true, Bool.and_self, Bool.and_true, Bool.true_and,
                    Bool.and_false, Bool.false_and, Bool.not_true, Bool.not_false, Bool.false_eq_true,
                    eq_self_iff_true, if_true, ne_eq, not_true, true_and, false_and, if_false] at h
                try dsimp only [] at h
                cases hao2 : SqrtPriceMath.getAmount1Delta next sqrtCurrent liquidity false with
                | error err =>
                  rw [hao2] at h
                  try dsimp only [] at h
                  exact Except.noConfusion h
                | ok aout2 =>
                  rw [hao2] at h
                  try dsimp only [] at h
                  cases hfee : FullMath.mulDivRoundingUp ain feePips (MAX_FEE - feePips) with
                  | error err =>
                    rw [hfee] at h
                    try dsimp only [] at h
                    exact Except.noConfusion h
                  | ok fee =>
                    rw [hfee] at h
                    try dsimp only [] at h
                    injection h with h1
                    subst h1
                    dsimp only []
                    have hain0 : 0 ≤ ain := (getAmount0Delta_up_facts next sqrtCurrent liquidity ain hnext0 hnextC hL hain).1
                    have hfee0 : 0 ≤ fee := mdru_nonneg _ _ _ _ (mul_nonneg hain0 hf1) hkpos hfee
                    exact ⟨fun ha => absurd ha hex, hfee0⟩
    · have hbz : decide (sqrtTarget ≤ sqrtCurrent) = false := decide_eq_false hzfo
      have hCT : sqrtCurrent ≤ sqrtTarget := le_of_lt (not_le.mp hzfo)
      rw [hbz] at h
      try simp only [beq_self_eq_true, Bool.and_self, Bool.and_true, Bool.true_and,
          Bool.and_false, Bool.false_and, Bool.not_true, Bool.not_false, Bool.false_eq_true,
          eq_self_iff_true, if_true, ne_eq, not_true, true_and, false_and, if_false] at h
      try dsimp only [] at h
      cases hAoutE : SqrtPriceMath.getAmount0Delta sqrtCurrent sqrtTarget liquidity false with
      | error err =>
        rw [hAoutE] at h
        try dsimp only [] at h
        exact Except.noConfusion h
      | ok aout0 =>
        rw [hAoutE] at h
        try dsimp only [] at h
        by_cases hfullo : aout0 ≤ amountRemaining * (-1)
        · rw [if_pos hfullo] at h
          try simp only [beq_self_eq_true, Bool.and_self, Bool.and_true, Bool.true_and,
              Bool.and_false, Bool.false_and, Bool.not_true, Bool.not_false, Bool.false_eq_true,
              eq_self_iff_true, if_true, ne_eq, not_true, true_and, false_and, if_false] at h
          try dsimp only [] at h
          cases hain : SqrtPriceMath.getAmount1Delta sqrtCurrent sqrtTarget liquidity true with
          | error err =>
            rw [hain] at h
            try dsimp only [] at h
            exact Except.noConfusion h
          | ok ain =>
            rw [hain] at h
            try simp only [beq_self_eq_true, Bool.and_self, Bool.and_true, Bool.true_and,
                Bool.and_false, Bool.false_and, Bool.not_true, Bool.not_false, Bool.false_eq_true,
                eq_self_iff_true, if_true, ne_eq, not_true, true_and, false_and, if_false] at h
            try dsimp only [] at h
            cases hfee : FullMath.mulDivRoundingUp ain feePips (MAX_FEE - feePips) with
            | error err =>
              rw [hfee] at h
              try dsimp only [] at h
              exact Except.noConfusion h
            | ok fee =>
              rw [hfee] at h
              try dsimp only [] at h
              injection h with h1
              subst h1
              dsimp only []
              have hain0 : 0 ≤ ain := (getAmount1Delta_up_facts sqrtCurrent sqrtTarget liquidity ain hCT hL hain).1
              have hfee0 : 0 ≤ fee := mdru_nonneg _ _ _ _ (mul_nonneg hain0 hf1) hkpos hfee
              exact ⟨fun ha => absurd ha hex, hfee0⟩
        · rw [if_neg hfullo] at h
          try dsimp only [] at h
          cases hnext : SqrtPriceMath.getNextSqrtPriceFromOutput sqrtCurrent liquidity
              (amountRemaining * (-1)) false with
          | error err =>
            rw [hnext] at h
            try dsimp only [] at h
            exact Except.noConfusion h
          | ok next =>
            rw [hnext] at h
            try dsimp only [] at h
            obtain ⟨hL0, hCnext⟩ :=
              nextFromOutput_false_facts sqrtCurrent liquidity _ next hC hnegA hnext
            by_cases hland : sqrtTarget = next
            · subst hland
              try simp only [beq_self_eq_true, Bool.and_self, Bool.and_true, Bool.true_and,
                  Bool.and_false, Bool.false_and, Bool.not_true, Bool.not_false, Bool.false_eq_true,
                  eq_self_iff_true, if_true, ne_eq, not_true, true_and, false_and, if_false] at h
              try dsimp only [] at h
              cases hain : SqrtPriceMath.getAmount1Delta sqrtCurrent sqrtTarget liquidity true with
              | error err =>
                rw [hain] at h
                try dsimp only [] at h
                exact Except.noConfusion h
              | ok ain =>
                rw [hain] at h
                try simp only [beq_self_eq_true, Bool.and_self, Bool.and_true, Bool.true_and,
                    Bool.and_false, Bool.false_and, Bool.not_true, Bool.not_false, Bool.false_eq_true,
                    eq_self_iff_true, if_true, ne_eq, not_true, true_and, false_and, if_false] at h
                try dsimp only [] at h
                cases hfee : FullMath.mulDivRoundingUp ain feePips (MAX_FEE - feePips) with
                | error err =>
                  rw [hfee] at h
                  try dsimp only [] at h
                  exact Except.noConfusion h
                | ok fee =>
                  rw [hfee] at h
                  try dsimp only [] at h
                  injection h with h1
                  subst h1
                  dsimp only []
                  have hain0 : 0 ≤ ain := (getAmount1Delta_up_facts sqrtCurrent sqrtTarget liquidity ain hCT hL hain).1
                  have hfee0 : 0 ≤ fee := mdru_nonneg _ _ _ _ (mul_nonneg hain0 hf1) hkpos hfee
                  exact ⟨fun ha => absurd ha hex, hfee0⟩
            · rw [show (sqrtTarget == next) = false from beq_eq_false_iff_ne.mpr hland] at h
              try simp only [beq_self_eq_true, Bool.and_self, Bool.and_true, Bool.true_and,
                  Bool.and_false, Bool.false_and, Bool.not_true, Bool.not_false, Bool.false_eq_true,
                  eq_self_iff_true, if_true, ne_eq, not_true, true_and, false_and, if_false] at h
              try dsimp only [] at h
              cases hain : SqrtPriceMath.getAmount1Delta sqrtCurrent next liquidity true with
              | error err =>
                rw [hain] at h
                try dsimp only [] at h
                exact Except.noConfusion h
              | ok ain =>
                rw [hain] at h
                try simp only [beq_self_eq_true, Bool.and_self, Bool.and_true, Bool.true_and,
                    Bool.and_false, Bool.false_and, Bool.not_true, Bool.not_false, Bool.false_eq_true,
                    eq_self_iff_true, if_true, ne_eq, not_true, true_and, false_and, if_false] at h
                try dsimp only [] at h
                cases hao2 : SqrtPriceMath.getAmount0Delta sqrtCurrent next liquidity false with
                | error err =>
                  rw [hao2] at h
                  try dsimp only [] at h
                  exact Except.noConfusion h
                | ok aout2 =>
                  rw [hao2] at h
                  try dsimp only [] at h
                  cases hfee : FullMath.mulDivRoundingUp ain feePips (MAX_FEE - feePips) with
                  | error err =>
                    rw [hfee] at h
                    try dsimp only [] at h
                    exact Except.noConfusion h
                  | ok fee =>
                    rw [hfee] at h
                    try dsimp only [] at h
                    injection h with h1
                    subst h1
                    dsimp only []
                    have hain0 : 0 ≤ ain := (getAmount1Delta_up_facts sqrtCurrent next liquidity ain hCnext hL hain).1
                    have hfee0 : 0 ≤ fee := mdru_nonneg _ _ _ _ (mul_nonneg hain0 hf1) hkpos hfee
                    exact ⟨fun ha => absurd ha hex, hfee0⟩

set_option maxRecDepth 100000 in
/-- C3 witness: the bound discharged on a concrete exact-input step (price
`2^96`, target the price of tick `-60`, liquidity `10^18`, amount `10^15`,
fee 3000). -/
theorem C3_fee_conservation_witness :
    SwapMath.computeSwapStep 79228162514264337593543950336 78990846045029531151608375686
      (10 ^ 18) (10 ^ 15) 3000 = .ok c3StepResult ∧
    ((0 ≤ (10 ^ 15 : Int) → c3StepResult.amountIn + c3StepResult.feeAmount ≤ 10 ^ 15) ∧
      0 ≤ c3StepResult.feeAmount) :=
  ⟨by rfl,
   C3_fee_conservation 79228162514264337593543950336 78990846045029531151608375686
     (10 ^ 18) (10 ^ 15) 3000 c3StepResult (by decide) (by decide) (by decide) (by decide)
     (by decide) (by decide) (by decide) (by rfl)⟩
